import Mathlib

/-!
Verification of the peer-to-peer link-sharing service (`src/lib/p2p-service.ts`
together with the `joinConnection` UI handler of `src/components/P2PSharing.tsx`).

The embedding models:
* JSON values (`Json`), the wire serializer used by `JSON.stringify` (`strCore` /
  `jsonStringify`) and a fuel-based model of `JSON.parse` (`parseCore` / `jsonParse`).
  Restrictions, noted where relevant: inter-token whitespace and fractional /
  exponent number literals are not modeled (the service's own serializer never
  emits them), and a trailing comma before a closing brace is tolerated by the
  parser model.
* JavaScript `Date` values in broken-down UTC form (`DateTime`), together with
  `Date.prototype.toISOString` (`toISOString`) and the revival performed by
  `new Date(x)` (`newDate` / `parseIsoDate`).  `parseIsoDate` models the full
  `YYYY-MM-DDTHH:mm:ss.sssZ` format, the only format the service's serializer
  produces; a valid `Date` is identified with its broken-down UTC fields, which
  determine and are determined by its millisecond time value.
* The `P2PService` class as an explicit state (`ServiceState`): its `connections`
  map is an insertion-ordered association list, its two single-slot callback
  fields are `Option Nat` handler tags, and callback invocations are reified as
  `CallbackCall` values returned by the event-handler functions.  The underlying
  `SimplePeer` transport is modeled as a record (`Peer`) accumulating the bytes
  passed to `send` and the payloads passed to `signal`.
All recursion is structural or fuel-based so every definition evaluates by
`decide` / `rfl` on concrete inputs.
-/

set_option maxRecDepth 1000000

/-- JavaScript strings, as lists of characters. -/
abbrev JStr := List Char

/-- JSON values (the result of `JSON.parse`, and the argument of `JSON.stringify`). -/
inductive Json where
  | null
  | bool (b : Bool)
  | num (n : Int)
  | str (s : JStr)
  | arr (elems : List Json)
  | obj (fields : List (JStr × Json))

/-- JavaScript truthiness of a JSON value. -/
def truthy : Json → Bool
  | .null => false
  | .bool b => b
  | .num n => decide (n ≠ 0)
  | .str s => decide (s ≠ [])
  | .arr _ => true
  | .obj _ => true

/-- Property access `v[k]` on a non-`null` JSON value: field lookup on objects,
`undefined` (`none`) on everything else.  Access on `null` throws in JavaScript
and is handled separately at each call site. -/
def jsGet (v : Json) (k : JStr) : Option Json :=
  match v with
  | .obj fields => (fields.find? (fun p => decide (p.1 = k))).map (fun p => p.2)
  | _ => none

/-- The decimal digit character for `n < 10`. -/
def digitChar (n : Nat) : Char := Char.ofNat (48 + n)

/-- Lower-case hexadecimal digit character for `n < 16`. -/
def hexDigitChar (n : Nat) : Char :=
  if n < 10 then Char.ofNat (48 + n) else Char.ofNat (87 + n)

/-- How `JSON.stringify` escapes a single character inside a string literal. -/
def escapeChar (c : Char) : List Char :=
  if c = '"' then ['\\', '"']
  else if c = '\\' then ['\\', '\\']
  else if c.toNat < 32 then
    if c = '\x08' then ['\\', 'b']
    else if c = '\t' then ['\\', 't']
    else if c = '\n' then ['\\', 'n']
    else if c = '\x0c' then ['\\', 'f']
    else if c = '\r' then ['\\', 'r']
    else ['\\', 'u', '0', '0', hexDigitChar (c.toNat / 16), hexDigitChar (c.toNat % 16)]
  else [c]

/-- `JSON.stringify` escaping of a whole string body. -/
def escape : JStr → JStr
  | [] => []
  | c :: cs => escapeChar c ++ escape cs

/-- A JSON string literal: quote, escaped body, quote. -/
def strLit (s : JStr) : JStr := '"' :: escape s ++ ['"']

/-- Decimal digits of a natural number (fuel-based; fuel `n + 1` always suffices). -/
def natChars : Nat → Nat → List Char
  | 0, _ => []
  | f + 1, n => if n < 10 then [digitChar n] else natChars f (n / 10) ++ [digitChar (n % 10)]

/-- Decimal representation of a natural number. -/
def natRepr (n : Nat) : List Char := natChars (n + 1) n

/-- Decimal representation of an integer (JSON number rendering for integers). -/
def intRepr (n : Int) : List Char :=
  if n < 0 then '-' :: natRepr (-n).toNat else natRepr n.toNat

/-- Serializer working set: a value, an object-field list, or an array-element list. -/
inductive SMode where
  | v (j : Json)
  | ms (fields : List (JStr × Json))
  | es (elems : List Json)

/-- Fuel-based core of `JSON.stringify`.  In `ms` / `es` mode the input is the
content after the opening brace / bracket and the rendering includes the
closing one. -/
def strCore : Nat → SMode → JStr
  | 0, _ => []
  | _ + 1, .v .null => ['n', 'u', 'l', 'l']
  | _ + 1, .v (.bool b) => if b then ['t', 'r', 'u', 'e'] else ['f', 'a', 'l', 's', 'e']
  | _ + 1, .v (.num n) => intRepr n
  | _ + 1, .v (.str s) => strLit s
  | f + 1, .v (.arr es) => '[' :: strCore f (.es es)
  | f + 1, .v (.obj fs) => '{' :: strCore f (.ms fs)
  | _ + 1, .ms [] => ['}']
  | f + 1, .ms [(k, v)] => strLit k ++ ':' :: strCore f (.v v) ++ ['}']
  | f + 1, .ms ((k, v) :: rest) => strLit k ++ ':' :: strCore f (.v v) ++ ',' :: strCore f (.ms rest)
  | _ + 1, .es [] => [']']
  | f + 1, .es [e] => strCore f (.v e) ++ [']']
  | f + 1, .es (e :: rest) => strCore f (.v e) ++ ',' :: strCore f (.es rest)

/-- `JSON.stringify` (for the undefined-free values the service serializes).
`strCore` consumes one unit of fuel per JSON node (string and number contents
consume none), so the fixed bound covers every value with fewer than a million
nodes — in particular every wire message the service builds, whose node count
is below thirty for any link.  (Real `JSON.stringify` likewise fails on values
nested beyond the engine's call-stack bound.) -/
def jsonStringify (j : Json) : JStr := strCore 1000000 (.v j)

/-- Numeric value of a decimal digit character. -/
def digitVal (c : Char) : Nat := c.toNat - 48

/-- Greedy decimal-digit scan with accumulator. -/
def parseDigitsAux : List Char → Nat → Nat × List Char
  | [], acc => (acc, [])
  | c :: cs, acc => if c.isDigit then parseDigitsAux cs (acc * 10 + digitVal c) else (acc, c :: cs)

/-- Parse a nonempty run of decimal digits. -/
def parseNatNum : List Char → Option (Nat × List Char)
  | c :: cs => if c.isDigit then some (parseDigitsAux cs (digitVal c)) else none
  | [] => none

/-- Single-character JSON string escapes accepted by `JSON.parse`. -/
def unescapeChar (c : Char) : Option Char :=
  if c = '"' then some '"'
  else if c = '\\' then some '\\'
  else if c = '/' then some '/'
  else if c = 'b' then some '\x08'
  else if c = 'f' then some '\x0c'
  else if c = 'n' then some '\n'
  else if c = 'r' then some '\r'
  else if c = 't' then some '\t'
  else none

/-- Value of one hexadecimal digit character. -/
def parseHexDigit (c : Char) : Option Nat :=
  if c.isDigit then some (digitVal c)
  else if 'a' ≤ c ∧ c ≤ 'f' then some (c.toNat - 87)
  else if 'A' ≤ c ∧ c ≤ 'F' then some (c.toNat - 55)
  else none

/-- Parse a JSON string body (after the opening quote) up to and including the
closing quote.  Fuel decreases once per produced character; `input.length + 1`
always suffices. -/
def parseStringBody : Nat → List Char → Option (JStr × List Char)
  | 0, _ => none
  | _ + 1, [] => none
  | f + 1, c :: rest =>
    if c = '"' then some ([], rest)
    else if c = '\\' then
      match rest with
      | [] => none
      | e :: rest2 =>
        if e = 'u' then
          match rest2 with
          | h1 :: h2 :: h3 :: h4 :: rest3 =>
            match parseHexDigit h1, parseHexDigit h2, parseHexDigit h3, parseHexDigit h4 with
            | some a, some b, some c2, some d =>
              (parseStringBody f rest3).map fun p =>
                (Char.ofNat (((a * 16 + b) * 16 + c2) * 16 + d) :: p.1, p.2)
            | _, _, _, _ => none
          | _ => none
        else
          match unescapeChar e with
          | some ch => (parseStringBody f rest2).map fun p => (ch :: p.1, p.2)
          | none => none
    else (parseStringBody f rest).map fun p => (c :: p.1, p.2)

/-- Intermediate parse results of `parseCore`. -/
inductive PRes where
  | v (j : Json)
  | ms (fields : List (JStr × Json))
  | es (elems : List Json)

/-- Parser modes: a value, object members (after `{` or `,`), array elements. -/
inductive PMode where
  | value
  | members
  | elemsM

/-- Fuel-based core of `JSON.parse`.  Fuel decreases on every recursive call;
since each call consumes at least one input character first, `input.length + 1`
always suffices. -/
def parseCore : Nat → PMode → List Char → Option (PRes × List Char)
  | 0, _, _ => none
  | f + 1, .value, s =>
    match s with
    | [] => none
    | c :: rest =>
      if c = '"' then (parseStringBody (rest.length + 1) rest).map fun p => (.v (.str p.1), p.2)
      else if c = '{' then
        (parseCore f .members rest).bind fun p =>
          match p.1 with
          | .ms fs => some (.v (.obj fs), p.2)
          | _ => none
      else if c = '[' then
        (parseCore f .elemsM rest).bind fun p =>
          match p.1 with
          | .es es => some (.v (.arr es), p.2)
          | _ => none
      else if c = 't' then
        match rest with
        | 'r' :: 'u' :: 'e' :: r => some (.v (.bool true), r)
        | _ => none
      else if c = 'f' then
        match rest with
        | 'a' :: 'l' :: 's' :: 'e' :: r => some (.v (.bool false), r)
        | _ => none
      else if c = 'n' then
        match rest with
        | 'u' :: 'l' :: 'l' :: r => some (.v .null, r)
        | _ => none
      else if c = '-' then
        (parseNatNum rest).map fun p => (.v (.num (-(p.1 : Int))), p.2)
      else if c.isDigit then
        (parseNatNum (c :: rest)).map fun p => (.v (.num (p.1 : Int)), p.2)
      else none
  | f + 1, .members, s =>
    match s with
    | [] => none
    | c :: r =>
      if c = '}' then some (.ms [], r)
      else if c = '"' then
        (parseStringBody (r.length + 1) r).bind fun pk =>
          match pk.2 with
          | [] => none
          | c3 :: r3 =>
            if c3 = ':' then
              (parseCore f .value r3).bind fun pv =>
                match pv.1 with
                | .v v =>
                  (match pv.2 with
                   | [] => none
                   | c5 :: r5 =>
                     if c5 = ',' then
                       (parseCore f .members r5).bind fun pm =>
                         match pm.1 with
                         | .ms fs => some (.ms ((pk.1, v) :: fs), pm.2)
                         | _ => none
                     else if c5 = '}' then some (.ms [(pk.1, v)], r5)
                     else none)
                | _ => none
            else none
      else none
  | f + 1, .elemsM, s =>
    match s with
    | ']' :: r => some (.es [], r)
    | _ =>
      (parseCore f .value s).bind fun pv =>
        match pv.1, pv.2 with
        | .v v, ',' :: r2 =>
          (parseCore f .elemsM r2).bind fun pe =>
            match pe.1 with
            | .es es => some (.es (v :: es), pe.2)
            | _ => none
        | .v v, ']' :: r2 => some (.es [v], r2)
        | _, _ => none

/-- Model of `JSON.parse`: `none` models the `SyntaxError` throw.  The whole
input must be consumed. -/
def jsonParse (s : JStr) : Option Json :=
  match parseCore (s.length + 1) .value s with
  | some (.v j, []) => some j
  | _ => none

/-- Broken-down UTC time, the observable content of a valid JavaScript `Date`.
Two valid dates are equal iff their millisecond time values are equal iff all
seven fields are equal. -/
structure DateTime where
  year : Nat
  month : Nat
  day : Nat
  hour : Nat
  minute : Nat
  second : Nat
  ms : Nat
  deriving DecidableEq

/-- Gregorian leap-year rule. -/
def isLeap (y : Nat) : Bool :=
  y % 4 = 0 && (y % 100 ≠ 0 || y % 400 = 0)

/-- Days in a month of the proleptic Gregorian calendar. -/
def daysInMonth (y m : Nat) : Nat :=
  if m = 2 then (if isLeap y then 29 else 28)
  else if m = 4 ∨ m = 6 ∨ m = 9 ∨ m = 11 then 30
  else 31

/-- Well-formedness of a broken-down time: the ranges in which it denotes a
valid `Date` renderable by `toISOString` in the four-digit-year format. -/
def isValidDT (d : DateTime) : Bool :=
  decide (d.year ≤ 9999) && decide (1 ≤ d.month) && decide (d.month ≤ 12) &&
  decide (1 ≤ d.day) && decide (d.day ≤ daysInMonth d.year d.month) &&
  decide (d.hour ≤ 23) && decide (d.minute ≤ 59) && decide (d.second ≤ 59) &&
  decide (d.ms ≤ 999)

/-- Two-digit zero-padded decimal rendering. -/
def pad2 (n : Nat) : List Char := [digitChar (n / 10 % 10), digitChar (n % 10)]

/-- Three-digit zero-padded decimal rendering. -/
def pad3 (n : Nat) : List Char :=
  [digitChar (n / 100 % 10), digitChar (n / 10 % 10), digitChar (n % 10)]

/-- Four-digit zero-padded decimal rendering. -/
def pad4 (n : Nat) : List Char :=
  [digitChar (n / 1000 % 10), digitChar (n / 100 % 10), digitChar (n / 10 % 10), digitChar (n % 10)]

/-- `Date.prototype.toISOString`: `YYYY-MM-DDTHH:mm:ss.sssZ`. -/
def toISOString (d : DateTime) : JStr :=
  pad4 d.year ++ '-' :: pad2 d.month ++ '-' :: pad2 d.day ++ 'T' :: pad2 d.hour ++
    ':' :: pad2 d.minute ++ ':' :: pad2 d.second ++ '.' :: pad3 d.ms ++ ['Z']

/-- Parsing of the ISO format emitted by `toISOString`, as `new Date(string)`
does it: fixed shape, with component range checks; out-of-range components give
an invalid date (`none`). -/
def parseIsoDate : JStr → Option DateTime
  | [y1, y2, y3, y4, '-', m1, m2, '-', d1, d2, 'T', h1, h2, ':', i1, i2, ':', s1, s2, '.',
     x1, x2, x3, 'Z'] =>
    if y1.isDigit && y2.isDigit && y3.isDigit && y4.isDigit && m1.isDigit && m2.isDigit &&
       d1.isDigit && d2.isDigit && h1.isDigit && h2.isDigit && i1.isDigit && i2.isDigit &&
       s1.isDigit && s2.isDigit && x1.isDigit && x2.isDigit && x3.isDigit then
      let y := ((digitVal y1 * 10 + digitVal y2) * 10 + digitVal y3) * 10 + digitVal y4
      let mo := digitVal m1 * 10 + digitVal m2
      let dd := digitVal d1 * 10 + digitVal d2
      let h := digitVal h1 * 10 + digitVal h2
      let mi := digitVal i1 * 10 + digitVal i2
      let sec := digitVal s1 * 10 + digitVal s2
      let msv := (digitVal x1 * 10 + digitVal x2) * 10 + digitVal x3
      if 1 ≤ mo ∧ mo ≤ 12 ∧ 1 ≤ dd ∧ dd ≤ daysInMonth y mo ∧ h ≤ 23 ∧ mi ≤ 59 ∧ sec ≤ 59 then
        some ⟨y, mo, dd, h, mi, sec, msv⟩
      else none
    else none
  | _ => none

/-- A JavaScript `Date` value as produced by `new Date(x)`: a valid broken-down
UTC time, a valid time value given numerically (epoch milliseconds), or the
Invalid Date. -/
inductive JsDate where
  | valid (d : DateTime)
  | fromNum (n : Int)
  | invalid
  deriving DecidableEq

/-- `new Date(x)` where `x` is a JSON value or absent (`undefined`).  Strings
are revived through `parseIsoDate`; numbers, `null` and booleans coerce to a
numeric time value; objects and arrays are approximated as invalid (the service
never produces them in timestamp position). -/
def newDate : Option Json → JsDate
  | none => .invalid
  | some .null => .fromNum 0
  | some (.bool b) => .fromNum (if b then 1 else 0)
  | some (.num n) => .fromNum n
  | some (.str s) =>
    match parseIsoDate s with
    | some d => .valid d
    | none => .invalid
  | some (.arr _) => .invalid
  | some (.obj _) => .invalid

/-- The property names of the wire format, as character lists. -/
def typeKey : JStr := ['t', 'y', 'p', 'e']

/-- The `link` property name. -/
def linkKey : JStr := ['l', 'i', 'n', 'k']

/-- The envelope's type tag, `'link-share'`. -/
def linkShareTag : JStr := ['l', 'i', 'n', 'k', '-', 's', 'h', 'a', 'r', 'e']

/-- The `id` property name. -/
def idKey : JStr := ['i', 'd']

/-- The `originalUrl` property name. -/
def originalUrlKey : JStr := ['o', 'r', 'i', 'g', 'i', 'n', 'a', 'l', 'U', 'r', 'l']

/-- The `shortUrl` property name. -/
def shortUrlKey : JStr := ['s', 'h', 'o', 'r', 't', 'U', 'r', 'l']

/-- The `title` property name. -/
def titleKey : JStr := ['t', 'i', 't', 'l', 'e']

/-- The `description` property name. -/
def descriptionKey : JStr := ['d', 'e', 's', 'c', 'r', 'i', 'p', 't', 'i', 'o', 'n']

/-- The `expiresAt` property name. -/
def expiresAtKey : JStr := ['e', 'x', 'p', 'i', 'r', 'e', 's', 'A', 't']

/-- The `createdAt` property name. -/
def createdAtKey : JStr := ['c', 'r', 'e', 'a', 't', 'e', 'd', 'A', 't']

/-- The `clicks` property name. -/
def clicksKey : JStr := ['c', 'l', 'i', 'c', 'k', 's']

/-- The `sharedBy` property name. -/
def sharedByKey : JStr := ['s', 'h', 'a', 'r', 'e', 'd', 'B', 'y']

/-- The constant `'peer'` the service stamps into `sharedBy`. -/
def peerTag : JStr := ['p', 'e', 'e', 'r']

/-- The `P2PLink` interface of `p2p-service.ts`. -/
structure P2PLink where
  id : JStr
  originalUrl : JStr
  shortUrl : JStr
  title : JStr
  description : Option JStr
  expiresAt : DateTime
  createdAt : DateTime
  clicks : Nat
  sharedBy : Option JStr

/-- The `SimplePeer.Instance` transport handle: its fixed role, whether
`destroy()` was called, the byte strings passed to `send`, and the payloads fed
to `signal`. -/
structure Peer where
  initiatorFlag : Bool
  destroyed : Bool
  sent : List JStr
  signaled : List Json

/-- The `P2PConnection` record of `p2p-service.ts`. -/
structure P2PConnection where
  id : JStr
  peer : Peer
  isConnected : Bool
  isInitiator : Bool
  remoteId : Option Json
  connectionCode : Option JStr

/-- The mutable state of the `P2PService` singleton: the insertion-ordered
`connections` map and the two single-slot callback fields, as handler tags. -/
structure ServiceState where
  connections : List P2PConnection
  linkHandler : Option Nat
  statusHandler : Option Nat

/-- The state of a freshly constructed `P2PService`. -/
def initState : ServiceState := ⟨[], none, none⟩

/-- `this.connections.get(connectionId)`. -/
def lookupConn (st : ServiceState) (cid : JStr) : Option P2PConnection :=
  st.connections.find? (fun c => decide (c.id = cid))

/-- `Map.set` semantics: replace in place if the key is present, else append. -/
def mapSet (conns : List P2PConnection) (conn : P2PConnection) : List P2PConnection :=
  if conns.any (fun c => decide (c.id = conn.id)) then
    conns.map (fun c => if c.id = conn.id then conn else c)
  else conns ++ [conn]

/-- In-place mutation of the connection object stored under `cid`. -/
def updateConn (st : ServiceState) (cid : JStr) (f : P2PConnection → P2PConnection) :
    ServiceState :=
  { st with connections := st.connections.map (fun c => if c.id = cid then f c else c) }

/-- `P2PService.createConnection`, with the `Math.random`-generated identifier as
an explicit parameter. -/
def createConnection (st : ServiceState) (freshId : JStr) : ServiceState × P2PConnection :=
  let peer : Peer := ⟨true, false, [], []⟩
  let conn : P2PConnection := ⟨freshId, peer, false, true, none, none⟩
  ({ st with connections := mapSet st.connections conn }, conn)

/-- `P2PService.joinConnection` on an already-parsed signaling payload.  Reading
`signalingData.id` throws a `TypeError` when the payload is `null`; this happens
before the connection is stored, so the state is unchanged on that path.  The
returned snapshot is the stored record before `peer.signal` ran. -/
def joinConnection (st : ServiceState) (freshId : JStr) (signalingData : Json) :
    Except Unit (ServiceState × P2PConnection) :=
  match signalingData with
  | .null => .error ()
  | _ =>
    let peer : Peer := ⟨false, false, [], []⟩
    let conn : P2PConnection := ⟨freshId, peer, false, false, jsGet signalingData idKey, none⟩
    let st1 : ServiceState := { st with connections := mapSet st.connections conn }
    let st2 := updateConn st1 freshId
      (fun c => { c with peer := { c.peer with signaled := c.peer.signaled ++ [signalingData] } })
    .ok (st2, conn)

/-- The `joinConnection` click handler of `P2PSharing.tsx`: `JSON.parse` the
pasted code inside `try`, call the service, surface any throw as a failure
toast (`none`) with nothing stored. -/
def uiJoinConnection (st : ServiceState) (freshId : JStr) (code : JStr) :
    ServiceState × Option P2PConnection :=
  match jsonParse code with
  | none => (st, none)
  | some signalingData =>
    match joinConnection st freshId signalingData with
    | .error _ => (st, none)
    | .ok (st2, conn) => (st2, some conn)

/-- The `link` object of the wire message built by `P2PService.shareLink`:
the input link's fields with `sharedBy` overwritten by the constant `'peer'`,
`createdAt` overwritten by the send time, and both timestamps rendered by
`toISOString`.  A `description` of `undefined` is omitted by `JSON.stringify`. -/
def wireLinkFields (link : P2PLink) (now : DateTime) : List (JStr × Json) :=
  [(idKey, Json.str link.id),
   (originalUrlKey, Json.str link.originalUrl),
   (shortUrlKey, Json.str link.shortUrl),
   (titleKey, Json.str link.title)] ++
  (match link.description with
   | some d => [(descriptionKey, Json.str d)]
   | none => []) ++
  [(expiresAtKey, Json.str (toISOString link.expiresAt)),
   (createdAtKey, Json.str (toISOString now)),
   (clicksKey, Json.num link.clicks),
   (sharedByKey, Json.str peerTag)]

/-- The complete wire message of `P2PService.shareLink`. -/
def wireMessage (link : P2PLink) (now : DateTime) : Json :=
  Json.obj [(typeKey, Json.str linkShareTag), (linkKey, Json.obj (wireLinkFields link now))]

/-- `P2PService.shareLink`, with the clock reading `new Date()` as parameter. -/
def shareLink (st : ServiceState) (cid : JStr) (link : P2PLink) (now : DateTime) :
    ServiceState × Bool :=
  match lookupConn st cid with
  | none => (st, false)
  | some conn =>
    if conn.isConnected then
      (updateConn st cid (fun c =>
        { c with peer :=
          { c.peer with sent := c.peer.sent ++ [jsonStringify (wireMessage link now)] } }), true)
    else (st, false)

/-- A field value of the object the data handler delivers: either a JSON value
copied by the spread, or a `Date` produced by timestamp revival. -/
inductive RVal where
  | js (j : Json)
  | date (d : JsDate)

/-- Reified callback invocations dispatched by the service. -/
inductive CallbackCall where
  | linkReceived (handler : Nat) (link : List (JStr × RVal))
  | statusChange (handler : Nat) (cid : JStr) (isConnected : Bool)

/-- Own enumerable fields of a JSON value, as object spread sees them (non-object
primitives spread to nothing; the string/array index-key case is not modeled, no
claim touches it). -/
def objFields : Json → List (JStr × Json)
  | .obj fs => fs
  | _ => []

/-- JavaScript object-literal field update: overwrite in place if the key is
present, else append. -/
def setFieldR (fs : List (JStr × RVal)) (k : JStr) (v : RVal) : List (JStr × RVal) :=
  if fs.any (fun p => decide (p.1 = k)) then
    fs.map (fun p => if p.1 = k then (k, v) else p)
  else fs ++ [(k, v)]

/-- The link object built by the data handler:
`{...message.link, expiresAt: new Date(...), createdAt: new Date(...)}`. -/
def reviveLink (lv : Json) : List (JStr × RVal) :=
  let base := (objFields lv).map (fun p => (p.1, RVal.js p.2))
  let e := RVal.date (newDate (jsGet lv expiresAtKey))
  let c := RVal.date (newDate (jsGet lv createdAtKey))
  setFieldR (setFieldR base expiresAtKey e) createdAtKey c

/-- Body of the `data` handler after a successful `JSON.parse`: the type-tag and
link-presence test and the delivery.  `.error` models the `TypeError` thrown by
`message.type` when the message is `null`; it is caught by the surrounding
`try`. -/
def dataBody (m : Json) (handler : Option Nat) : Except Unit (List CallbackCall) :=
  match m with
  | .null => .error ()
  | _ =>
    .ok (match jsGet m typeKey with
      | some (.str t) =>
        if t = linkShareTag then
          match jsGet m linkKey with
          | some lv =>
            if truthy lv then
              match handler with
              | some h => [.linkReceived h (reviveLink lv)]
              | none => []
            else []
          | none => []
        else []
      | _ => [])

/-- The `data` event handler of `setupPeerEventHandlers`: parse inside `try`,
deliver on a well-formed envelope, drop (and log) otherwise.  It never mutates
the service state. -/
def peerDataEvent (st : ServiceState) (raw : JStr) : List CallbackCall :=
  match jsonParse raw with
  | none => []
  | some m =>
    match dataBody m st.linkHandler with
    | .error _ => []
    | .ok calls => calls

/-- The `signal` event handler: store the stringified payload as the connection
code of the connection, if it is still registered. -/
def peerSignalEvent (st : ServiceState) (cid : JStr) (payload : Json) : ServiceState :=
  updateConn st cid (fun c => { c with connectionCode := some (jsonStringify payload) })

/-- The `connect` event handler: mark the connection connected and notify the
status subscriber (only when the connection is still registered). -/
def peerConnectEvent (st : ServiceState) (cid : JStr) : ServiceState × List CallbackCall :=
  match lookupConn st cid with
  | none => (st, [])
  | some _ =>
    (updateConn st cid (fun c => { c with isConnected := true }),
     match st.statusHandler with
     | some h => [.statusChange h cid true]
     | none => [])

/-- The `close` event handler: mark the connection disconnected and notify the
status subscriber.  It does not remove the connection from the map. -/
def peerCloseEvent (st : ServiceState) (cid : JStr) : ServiceState × List CallbackCall :=
  match lookupConn st cid with
  | none => (st, [])
  | some _ =>
    (updateConn st cid (fun c => { c with isConnected := false }),
     match st.statusHandler with
     | some h => [.statusChange h cid false]
     | none => [])

/-- The `error` event handler: it only logs; the registry is untouched. -/
def peerErrorEvent (st : ServiceState) (_cid : JStr) : ServiceState := st

/-- `P2PService.getConnectionCode`: `null` unless the connection exists, is the
initiator, and has a truthy stored code. -/
def getConnectionCode (st : ServiceState) (cid : JStr) : Option JStr :=
  match lookupConn st cid with
  | none => none
  | some conn =>
    if conn.isInitiator then
      match conn.connectionCode with
      | some code => if code = [] then none else some code
      | none => none
    else none

/-- `P2PService.closeConnection`: destroy the peer and delete the entry; a no-op
on unknown ids. -/
def closeConnection (st : ServiceState) (cid : JStr) : ServiceState :=
  match lookupConn st cid with
  | none => st
  | some _ => { st with connections := st.connections.filter (fun c => decide (c.id ≠ cid)) }

/-- `P2PService.getConnections`: the stored connections in insertion order. -/
def getConnections (st : ServiceState) : List P2PConnection := st.connections

/-- A call of `p2pService.onLinkReceived(handler)`.  In the class, the method
and the private callback field share the name `onLinkReceived` (a duplicate
identifier), so only a call made while the own field is still unset reaches the
prototype method and performs `this.onLinkReceived = handler`; once the field
holds a function, the call expression dispatches to the stored handler instead
and registers nothing — the slot is filled at most once.  (Under define-style
class-field lowering the call throws on the `undefined` own field before any
assignment; the state is unchanged on that path too.) -/
def onLinkReceivedReg (st : ServiceState) (h : Nat) : ServiceState :=
  match st.linkHandler with
  | none => { st with linkHandler := some h }
  | some _ => st

/-- A call of `p2pService.onConnectionStatusChange(handler)`: the same
method/field name collision as `onLinkReceivedReg`, so the slot is filled at
most once and later calls register nothing. -/
def onConnectionStatusChangeReg (st : ServiceState) (h : Nat) : ServiceState :=
  match st.statusHandler with
  | none => { st with statusHandler := some h }
  | some _ => st

/-- `P2PService.destroy`: destroy every peer and clear the map. -/
def destroyService (st : ServiceState) : ServiceState :=
  { st with connections := [] }

/-- The operations that can reach the service state: its public methods and the
transport events routed through `setupPeerEventHandlers`. -/
inductive Op where
  | create (freshId : JStr)
  | join (freshId : JStr) (code : JStr)
  | share (cid : JStr) (link : P2PLink) (now : DateTime)
  | signalEvt (cid : JStr) (payload : Json)
  | connectEvt (cid : JStr)
  | dataEvt (raw : JStr)
  | closeEvt (cid : JStr)
  | errorEvt (cid : JStr)
  | close (cid : JStr)
  | regLink (h : Nat)
  | regStatus (h : Nat)
  | destroyAll

/-- State transition of one operation. -/
def step (st : ServiceState) : Op → ServiceState
  | .create freshId => (createConnection st freshId).1
  | .join freshId code => (uiJoinConnection st freshId code).1
  | .share cid link now => (shareLink st cid link now).1
  | .signalEvt cid payload => peerSignalEvent st cid payload
  | .connectEvt cid => (peerConnectEvent st cid).1
  | .dataEvt _ => st
  | .closeEvt cid => (peerCloseEvent st cid).1
  | .errorEvt cid => peerErrorEvent st cid
  | .close cid => closeConnection st cid
  | .regLink h => onLinkReceivedReg st h
  | .regStatus h => onConnectionStatusChangeReg st h
  | .destroyAll => destroyService st

/-- Running an operation sequence from the freshly constructed service. -/
def run (ops : List Op) : ServiceState := ops.foldl step initState

/-- Field lookup in a delivered link object. -/
def rget (fs : List (JStr × RVal)) (k : JStr) : Option RVal :=
  (fs.find? (fun p => decide (p.1 = k))).map (fun p => p.2)

/-- Scalar JSON values: strings, and the nonnegative integers the service puts
in the `clicks` field. -/
def ScalarJ : Json → Prop
  | .str _ => True
  | .num n => 0 ≤ n
  | _ => False

/-- Rendering of a scalar value, for stating the serializer's output shape. -/
def printScalar : Json → JStr
  | .str s => strLit s
  | .num n => intRepr n
  | _ => []

/-- Rendering of an object-member list (after the opening brace, including the
closing one), for stating the serializer's output shape. -/
def printMembers : List (JStr × Json) → JStr
  | [] => ['}']
  | [(k, v)] => strLit k ++ ':' :: printScalar v ++ ['}']
  | (k, v) :: rest => strLit k ++ ':' :: printScalar v ++ ',' :: printMembers rest

/-- The head of the list, if any, is not a decimal digit. -/
def NotDigitHead : List Char → Prop
  | [] => True
  | c :: _ => c.isDigit = false

/-- The exact character sequence `JSON.stringify` produces for the wire
message: the fixed envelope frame around the rendered link fields. -/
def msgChars (link : P2PLink) (now : DateTime) : JStr :=
  '{' :: strLit typeKey ++ ':' :: strLit linkShareTag ++ ',' :: strLit linkKey ++ ':' ::
    '{' :: printMembers (wireLinkFields link now) ++ ['}']

/-- The object the receiving data handler passes to `onLinkReceived` for a wire
message built from `link` at send time `now` (with both timestamps valid): all
wire fields copied, with `expiresAt` and `createdAt` revived to `Date` values. -/
def deliveredLink (link : P2PLink) (now : DateTime) : List (JStr × RVal) :=
  [(idKey, RVal.js (.str link.id)),
   (originalUrlKey, RVal.js (.str link.originalUrl)),
   (shortUrlKey, RVal.js (.str link.shortUrl)),
   (titleKey, RVal.js (.str link.title))] ++
  (match link.description with
   | some dsc => [(descriptionKey, RVal.js (.str dsc))]
   | none => []) ++
  [(expiresAtKey, RVal.date (.valid link.expiresAt)),
   (createdAtKey, RVal.date (.valid now)),
   (clicksKey, RVal.js (.num link.clicks)),
   (sharedByKey, RVal.js (.str peerTag))]

/-! ### Concrete inputs used to evaluate the definitions -/

/-- A peer name distinct from the constant `'peer'`. -/
def aliceName : JStr := ['a', 'l', 'i', 'c', 'e']

/-- A concrete valid send time. -/
def exNow : DateTime := ⟨2024, 5, 6, 7, 8, 9, 10⟩

/-- A concrete valid creation time, different from `exNow`. -/
def exCreated : DateTime := ⟨2023, 1, 2, 3, 4, 5, 6⟩

/-- A concrete valid expiry time. -/
def exExpires : DateTime := ⟨2025, 12, 31, 23, 59, 59, 999⟩

/-- A concrete link record whose `sharedBy` is a name other than `'peer'`. -/
def exL : P2PLink := ⟨['x'], ['u'], ['s'], ['t'], none, exExpires, exCreated, 3, some aliceName⟩

/-- A state with only the link handler `7` registered. -/
def stHandler : ServiceState := ⟨[], some 7, none⟩

/-- A state with only the link handler `5` registered. -/
def stHandler5 : ServiceState := ⟨[], some 5, none⟩

/-- The characters of `"not json"`. -/
def notJson : JStr := ['n', 'o', 't', ' ', 'j', 's', 'o', 'n']

/-- A string that is not a parseable ISO-8601 timestamp. -/
def garbageTs : JStr := ['s', 'o', 'o', 'n']

/-- A link object whose timestamp fields are unparseable strings. -/
def badLink : Json :=
  .obj [(idKey, .str ['x']), (expiresAtKey, .str garbageTs), (createdAtKey, .str garbageTs)]

/-- A well-framed envelope carrying `badLink`. -/
def badMsg : Json := .obj [(typeKey, .str linkShareTag), (linkKey, badLink)]

/-- A concrete connection id. -/
def aId : JStr := ['a']

/-- A connected initiator connection under `aId`. -/
def connW : P2PConnection := ⟨aId, ⟨true, false, [], []⟩, true, true, none, none⟩

/-- A state holding only `connW`. -/
def stConnW : ServiceState := ⟨[connW], none, none⟩

/-- A not-yet-connected initiator connection under `aId`. -/
def connD : P2PConnection := ⟨aId, ⟨true, false, [], []⟩, false, true, none, none⟩

/-- A state holding only `connD`. -/
def stDiscW : ServiceState := ⟨[connD], none, none⟩

/-- Create a connection, then let the transport signal on it. -/
def opsSig : List Op := [.create aId, .signalEvt aId (.num 5)]

/-- Join with the pasted code `"5"`. -/
def opsJoin : List Op := [.join aId ['5']]

/-- The responder connection `opsJoin` stores. -/
def connJ : P2PConnection := ⟨aId, ⟨false, false, [], [.num 5]⟩, false, false, none, none⟩

/-- Create, connect, then let the transport report closure. -/
def opsClose : List Op := [.create aId, .connectEvt aId, .closeEvt aId]

/-- The connection `opsClose` leaves behind: still registered, flagged closed. -/
def connClosed : P2PConnection := ⟨aId, ⟨true, false, [], []⟩, false, true, none, none⟩

/-! ### Digit and character facts -/

theorem digitChar_isDigit {n : Nat} (h : n < 10) : (digitChar n).isDigit = true := by
  interval_cases n <;> decide

theorem digitVal_digitChar {n : Nat} (h : n < 10) : digitVal (digitChar n) = n := by
  interval_cases n <;> decide

theorem parseHexDigit_hexDigitChar {n : Nat} (h : n < 16) :
    parseHexDigit (hexDigitChar n) = some n := by
  interval_cases n <;> decide

/-! ### Decimal round trip -/

theorem natChars_ne_nil {f n : Nat} (h : n < f) : natChars f n ≠ [] := by
  cases f with
  | zero => omega
  | succ f =>
    simp only [natChars]
    split
    · simp
    · simp

theorem natChars_digits {f n : Nat} (h : n < f) : ∀ c ∈ natChars f n, c.isDigit = true := by
  induction f generalizing n with
  | zero => omega
  | succ f ih =>
    simp only [natChars]
    split
    · next hlt =>
      intro c hc
      simp only [List.mem_singleton] at hc
      subst hc
      exact digitChar_isDigit hlt
    · next hge =>
      intro c hc
      have hlt10 : ¬ n < 10 := hge
      have hdiv : n / 10 < n := Nat.div_lt_self (by omega) (by omega)
      simp only [List.mem_append, List.mem_singleton] at hc
      rcases hc with hc | hc
      · exact ih (by omega) c hc
      · subst hc
        exact digitChar_isDigit (Nat.mod_lt _ (by omega))

theorem natChars_foldl {f n : Nat} (h : n < f) (acc : Nat) :
    (natChars f n).foldl (fun a c => a * 10 + digitVal c) acc =
      acc * 10 ^ (natChars f n).length + n := by
  induction f generalizing n acc with
  | zero => omega
  | succ f ih =>
    simp only [natChars]
    split
    · next hlt =>
      simp [digitVal_digitChar hlt]
    · next hge =>
      have hlt10 : ¬ n < 10 := hge
      have hdiv : n / 10 < n := Nat.div_lt_self (by omega) (by omega)
      rw [List.foldl_append, ih (by omega) acc]
      simp only [List.foldl, List.length_append, List.length_singleton]
      rw [digitVal_digitChar (Nat.mod_lt _ (by omega))]
      rw [pow_succ, ← mul_assoc]
      generalize acc * 10 ^ (natChars f (n / 10)).length = A
      omega

theorem parseDigitsAux_append {ds : List Char} (hds : ∀ c ∈ ds, c.isDigit = true)
    (rest : List Char) (acc : Nat) :
    parseDigitsAux (ds ++ rest) acc =
      parseDigitsAux rest (ds.foldl (fun a c => a * 10 + digitVal c) acc) := by
  induction ds generalizing acc with
  | nil => simp
  | cons c cs ih =>
    simp only [List.cons_append, parseDigitsAux, List.foldl]
    rw [if_pos (hds c (by simp))]
    exact ih (fun c hc => hds c (by simp [hc])) _

theorem parseDigitsAux_stop {rest : List Char} (h : NotDigitHead rest) (acc : Nat) :
    parseDigitsAux rest acc = (acc, rest) := by
  cases rest with
  | nil => rfl
  | cons c cs =>
    simp only [NotDigitHead] at h
    simp [parseDigitsAux, h]

theorem parseNatNum_natRepr (n : Nat) {rest : List Char} (h : NotDigitHead rest) :
    parseNatNum (natRepr n ++ rest) = some (n, rest) := by
  have hne := natChars_ne_nil (show n < n + 1 by omega)
  have hdig := natChars_digits (show n < n + 1 by omega)
  have hfold := natChars_foldl (show n < n + 1 by omega) 0
  unfold natRepr
  match hrep : natChars (n + 1) n with
  | [] => exact absurd hrep hne
  | d :: ds =>
    rw [hrep] at hdig hfold
    simp only [List.cons_append, parseNatNum]
    rw [if_pos (hdig d (by simp))]
    rw [parseDigitsAux_append (fun c hc => hdig c (by simp [hc])) rest (digitVal d)]
    rw [parseDigitsAux_stop h]
    simp only [List.foldl] at hfold
    rw [show digitVal d = 0 * 10 + digitVal d by omega]
    rw [hfold]
    simp

/-! ### String-literal round trip -/

theorem escapeChar_length_pos (c : Char) : 1 ≤ (escapeChar c).length := by
  unfold escapeChar
  split_ifs <;> simp

theorem length_escape_ge (s : JStr) : s.length ≤ (escape s).length := by
  induction s with
  | nil => simp [escape]
  | cons c cs ih =>
    have := escapeChar_length_pos c
    simp only [escape, List.length_append, List.length_cons]
    omega

theorem parseStringBody_escape (s : JStr) (g : Nat) (rest : JStr) :
    parseStringBody (s.length + g + 1) (escape s ++ '"' :: rest) = some (s, rest) := by
  induction s generalizing g with
  | nil =>
    simp [escape, parseStringBody]
  | cons c cs ih =>
    have hf : (c :: cs).length + g + 1 = (cs.length + g + 1) + 1 := by simp; omega
    rw [hf]
    simp only [escape, List.append_assoc, List.cons_append]
    by_cases h1 : c = '"'
    · subst h1
      simp only [escapeChar]
      norm_num
      simp only [List.cons_append, List.nil_append, parseStringBody]
      norm_num [unescapeChar]
      rw [ih g]
      simp
    · by_cases h2 : c = '\\'
      · subst h2
        simp only [escapeChar]
        norm_num
        simp only [List.cons_append, List.nil_append, parseStringBody]
        norm_num [unescapeChar]
        rw [ih g]
        simp
      · by_cases h3 : c.toNat < 32
        · by_cases h4 : c = '\x08'
          · subst h4
            simp only [escapeChar]
            norm_num
            simp only [List.cons_append, List.nil_append, parseStringBody]
            norm_num [unescapeChar]
            rw [ih g]
            simp
          · by_cases h5 : c = '\t'
            · subst h5
              simp only [escapeChar]
              norm_num
              simp only [List.cons_append, List.nil_append, parseStringBody]
              norm_num [unescapeChar]
              rw [ih g]
              simp
            · by_cases h6 : c = '\n'
              · subst h6
                simp only [escapeChar]
                norm_num
                simp only [List.cons_append, List.nil_append, parseStringBody]
                norm_num [unescapeChar]
                rw [ih g]
                simp
              · by_cases h7 : c = '\x0c'
                · subst h7
                  simp only [escapeChar]
                  norm_num
                  simp only [List.cons_append, List.nil_append, parseStringBody]
                  norm_num [unescapeChar]
                  rw [ih g]
                  simp
                · by_cases h8 : c = '\r'
                  · subst h8
                    simp only [escapeChar]
                    norm_num
                    simp only [List.cons_append, List.nil_append, parseStringBody]
                    norm_num [unescapeChar]
                    rw [ih g]
                    simp
                  · have hesc : escapeChar c =
                        ['\\', 'u', '0', '0', hexDigitChar (c.toNat / 16),
                         hexDigitChar (c.toNat % 16)] := by
                      unfold escapeChar
                      rw [if_neg h1, if_neg h2, if_pos h3, if_neg h4, if_neg h5, if_neg h6,
                        if_neg h7, if_neg h8]
                    rw [hesc]
                    simp only [List.cons_append, List.nil_append, parseStringBody]
                    norm_num
                    rw [parseHexDigit_hexDigitChar (show c.toNat / 16 < 16 by omega)]
                    rw [parseHexDigit_hexDigitChar (show c.toNat % 16 < 16 by omega)]
                    simp only [parseHexDigit]
                    norm_num [digitVal]
                    rw [ih g]
                    have harith : ((0 * 16 + 0) * 16 + c.toNat / 16) * 16 + c.toNat % 16 =
                        c.toNat := by omega
                    simp [harith, Char.ofNat_toNat]
                    rw [show c.toNat / 16 * 16 + c.toNat % 16 = c.toNat by omega,
                      Char.ofNat_toNat]
        · have hesc : escapeChar c = [c] := by
            unfold escapeChar
            rw [if_neg h1, if_neg h2, if_neg h3]
          rw [hesc]
          simp only [List.cons_append, List.nil_append, parseStringBody]
          rw [if_neg h1, if_neg h2]
          simp only [List.append_eq, List.nil_append]
          rw [ih g]
          simp

theorem parseStringBody_exact (s rest : JStr) :
    parseStringBody ((escape s ++ '"' :: rest).length + 1) (escape s ++ '"' :: rest) =
      some (s, rest) := by
  have hge := length_escape_ge s
  have hf : (escape s ++ '"' :: rest).length + 1 =
      s.length + ((escape s).length - s.length + rest.length + 1) + 1 := by
    simp [List.length_append]
    omega
  rw [hf]
  exact parseStringBody_escape s _ rest

theorem parseCore_strLit (s : JStr) (F : Nat) (hF : 1 ≤ F) (rest : JStr) :
    parseCore F .value ('"' :: (escape s ++ '"' :: rest)) = some (.v (.str s), rest) := by
  obtain ⟨f, rfl⟩ : ∃ f, F = f + 1 := ⟨F - 1, by omega⟩
  simp only [parseCore, if_true]
  rw [parseStringBody_exact]
  rfl

theorem isDigit_not_special {c : Char} (h : c.isDigit = true) :
    c ≠ '"' ∧ c ≠ '{' ∧ c ≠ '[' ∧ c ≠ 't' ∧ c ≠ 'f' ∧ c ≠ 'n' ∧ c ≠ '-' := by
  refine ⟨?_, ?_, ?_, ?_, ?_, ?_, ?_⟩ <;>
    exact fun hc => absurd (hc ▸ h) (by decide)

theorem parseCore_natLit (n : Nat) (F : Nat) (hF : 1 ≤ F) (rest : JStr)
    (h : NotDigitHead rest) :
    parseCore F .value (natRepr n ++ rest) = some (.v (.num (n : Int)), rest) := by
  obtain ⟨f, rfl⟩ : ∃ f, F = f + 1 := ⟨F - 1, by omega⟩
  have hne := natChars_ne_nil (show n < n + 1 by omega)
  have hdig := natChars_digits (show n < n + 1 by omega)
  have hrt := parseNatNum_natRepr n h
  unfold natRepr at hrt ⊢
  match hrep : natChars (n + 1) n with
  | [] => exact absurd hrep hne
  | d :: ds =>
    rw [hrep] at hdig hrt
    have hd : d.isDigit = true := hdig d (by simp)
    obtain ⟨n1, n2, n3, n4, n5, n6, n7⟩ := isDigit_not_special hd
    simp only [List.cons_append, parseCore]
    rw [if_neg n1, if_neg n2, if_neg n3, if_neg n4, if_neg n5, if_neg n6, if_neg n7, if_pos hd]
    rw [show d :: (ds ++ rest) = (d :: ds) ++ rest from rfl, hrt]
    rfl

theorem parseCore_scalar {v : Json} (hv : ScalarJ v) (F : Nat) (hF : 1 ≤ F) (rest : JStr)
    (h : NotDigitHead rest) :
    parseCore F .value (printScalar v ++ rest) = some (.v v, rest) := by
  cases v with
  | str s =>
    have := parseCore_strLit s F hF rest
    simpa [printScalar, strLit, List.cons_append, List.append_assoc,
      List.singleton_append] using this
  | num n =>
    have h0 : (0 : Int) ≤ n := hv
    have hint : intRepr n = natRepr n.toNat := by
      unfold intRepr
      rw [if_neg (by omega : ¬ n < 0)]
    simp only [printScalar, hint]
    rw [parseCore_natLit n.toNat F hF rest h]
    rw [Int.toNat_of_nonneg h0]
  | null => exact False.elim hv
  | bool b => exact False.elim hv
  | arr es => exact False.elim hv
  | obj fs => exact False.elim hv

/-! ### Object-member list round trip through the parser -/

theorem parseCore_printMembers (fields : List (JStr × Json)) (hs : ∀ kv ∈ fields, ScalarJ kv.2) :
    ∀ F, fields.length + 1 ≤ F → ∀ rest,
      parseCore F .members (printMembers fields ++ rest) = some (.ms fields, rest) := by
  induction fields with
  | nil =>
    intro F hF rest
    obtain ⟨f, rfl⟩ : ∃ f, F = f + 1 := ⟨F - 1, by omega⟩
    simp [printMembers, parseCore]
  | cons kv rest2 ih =>
    obtain ⟨k, v⟩ := kv
    intro F hF rest
    simp only [List.length_cons] at hF
    obtain ⟨f, rfl⟩ : ∃ f, F = f + 1 := ⟨F - 1, by omega⟩
    have hkv : ScalarJ v := hs (k, v) (by simp)
    have hf1 : 1 ≤ f := by omega
    cases rest2 with
    | nil =>
      simp only [printMembers, strLit, List.cons_append, List.append_assoc,
        List.singleton_append, List.nil_append]
      simp only [parseCore, if_true]
      rw [parseStringBody_exact]
      rw [if_neg (by decide : ¬ ('"' : Char) = '}')]
      simp only [Option.some_bind, if_true]
      rw [parseCore_scalar hkv f hf1 ('}' :: rest) (by simp [NotDigitHead])]
      simp only [Option.some_bind]
      rw [if_neg (by decide : ¬ ('}' : Char) = ',')]
      simp only [if_true]
    | cons kv2 t =>
      rw [show printMembers ((k, v) :: kv2 :: t) =
            strLit k ++ ':' :: printScalar v ++ ',' :: printMembers (kv2 :: t) from rfl]
      simp only [strLit, List.cons_append, List.append_assoc, List.singleton_append,
        List.nil_append]
      simp only [parseCore, if_true]
      rw [parseStringBody_exact]
      rw [if_neg (by decide : ¬ ('"' : Char) = '}')]
      simp only [Option.some_bind, if_true]
      rw [parseCore_scalar hkv f hf1 (',' :: (printMembers (kv2 :: t) ++ rest))
        (by simp [NotDigitHead])]
      simp only [Option.some_bind, if_true]
      rw [ih (fun kv hkv2 => hs kv (by simp [hkv2])) f (by omega) rest]
      rfl

/-! ### Serializer output shape -/

theorem strCore_scalar {v : Json} (hv : ScalarJ v) (F : Nat) (hF : 1 ≤ F) :
    strCore F (.v v) = printScalar v := by
  obtain ⟨f, rfl⟩ : ∃ f, F = f + 1 := ⟨F - 1, by omega⟩
  cases v with
  | str s => rfl
  | num n => rfl
  | null => exact False.elim hv
  | bool b => exact False.elim hv
  | arr es => exact False.elim hv
  | obj fs => exact False.elim hv

theorem strCore_printMembers (fields : List (JStr × Json)) (hs : ∀ kv ∈ fields, ScalarJ kv.2) :
    ∀ F, fields.length + 1 ≤ F → strCore F (.ms fields) = printMembers fields := by
  induction fields with
  | nil =>
    intro F hF
    obtain ⟨f, rfl⟩ : ∃ f, F = f + 1 := ⟨F - 1, by omega⟩
    rfl
  | cons kv rest2 ih =>
    obtain ⟨k, v⟩ := kv
    intro F hF
    simp only [List.length_cons] at hF
    obtain ⟨f, rfl⟩ : ∃ f, F = f + 1 := ⟨F - 1, by omega⟩
    have hkv : ScalarJ v := hs (k, v) (by simp)
    have hf1 : 1 ≤ f := by omega
    cases rest2 with
    | nil =>
      simp only [strCore, printMembers]
      rw [strCore_scalar hkv f hf1]
    | cons kv2 t =>
      rw [show printMembers ((k, v) :: kv2 :: t) =
            strLit k ++ ':' :: printScalar v ++ ',' :: printMembers (kv2 :: t) from rfl]
      simp only [strCore]
      rw [strCore_scalar hkv f hf1, ih (fun kv hkv2 => hs kv (by simp [hkv2])) f (by omega)]

theorem printMembers_length (fields : List (JStr × Json)) :
    fields.length ≤ (printMembers fields).length := by
  induction fields with
  | nil => simp [printMembers]
  | cons kv r ih =>
    obtain ⟨k, v⟩ := kv
    cases r with
    | nil =>
      simp only [printMembers, strLit, List.length_cons, List.length_append,
        List.length_singleton, List.length_nil]
      omega
    | cons kv2 t =>
      rw [show printMembers ((k, v) :: kv2 :: t) =
            strLit k ++ ':' :: printScalar v ++ ',' :: printMembers (kv2 :: t) from rfl]
      simp only [List.length_cons, List.length_append, strLit] at ih ⊢
      omega
theorem jsonStringify_wireMessage (L : P2PLink) (now : DateTime) :
    jsonStringify (wireMessage L now) = msgChars L now := by
  unfold jsonStringify wireMessage msgChars wireLinkFields
  rw [show (1000000 : Nat) = 999999 + 1 from rfl]
  cases hd : L.description
  · simp only [strCore]
    simp [printMembers, printScalar, List.append_assoc]
  · simp only [strCore]
    simp [printMembers, printScalar, List.append_assoc]
theorem wireLinkFields_scalar (L : P2PLink) (now : DateTime) :
    ∀ kv ∈ wireLinkFields L now, ScalarJ kv.2 := by
  intro kv hkv
  unfold wireLinkFields at hkv
  cases hL : L.description <;> rw [hL] at hkv <;> simp at hkv <;>
    rcases hkv with rfl | rfl | rfl | rfl | rfl | rfl | rfl | rfl | rfl <;>
      first
        | exact trivial
        | exact Int.natCast_nonneg _

theorem wireLinkFields_length (L : P2PLink) (now : DateTime) :
    (wireLinkFields L now).length ≤ 9 := by
  unfold wireLinkFields
  cases L.description <;> simp

theorem parseCore_msgChars (L : P2PLink) (now : DateTime) :
    ∀ F, (wireLinkFields L now).length + 5 ≤ F →
      parseCore F .value (msgChars L now) = some (.v (wireMessage L now), []) := by
  intro F hF
  obtain ⟨f1, rfl⟩ : ∃ f, F = f + 1 := ⟨F - 1, by omega⟩
  obtain ⟨f2, rfl⟩ : ∃ f, f1 = f + 1 := ⟨f1 - 1, by omega⟩
  obtain ⟨f3, rfl⟩ : ∃ f, f2 = f + 1 := ⟨f2 - 1, by omega⟩
  obtain ⟨f4, rfl⟩ : ∃ f, f3 = f + 1 := ⟨f3 - 1, by omega⟩
  unfold msgChars wireMessage
  simp only [strLit, List.cons_append, List.append_assoc, List.singleton_append,
    List.nil_append]
  simp only [parseCore, if_true]
  rw [if_neg (by decide : ¬ ('{' : Char) = '"')]
  rw [if_neg (by decide : ¬ ('"' : Char) = '}')]
  rw [parseStringBody_exact]
  simp only [Option.some_bind, if_true]
  rw [parseStringBody_exact]
  simp only [Option.map_some', Option.some_bind, if_true]
  rw [if_neg (by decide : ¬ ('"' : Char) = '}')]
  rw [parseStringBody_exact]
  simp only [Option.some_bind, if_true]
  rw [if_neg (by decide : ¬ ('{' : Char) = '"')]
  rw [parseCore_printMembers (wireLinkFields L now) (wireLinkFields_scalar L now) f4
    (by omega) ['}']]
  simp only [Option.some_bind]
  rw [if_neg (by decide : ¬ ('}' : Char) = ',')]
  simp only [if_true]
  rfl

/-- Length bound used to instantiate the parser's fuel at `jsonParse`'s call. -/
theorem msgChars_length (L : P2PLink) (now : DateTime) :
    (wireLinkFields L now).length + 5 ≤ (msgChars L now).length + 1 := by
  have h := printMembers_length (wireLinkFields L now)
  have h1 : (strLit typeKey).length = 6 := rfl
  have h2 : (strLit linkShareTag).length = 12 := rfl
  have h3 : (strLit linkKey).length = 6 := rfl
  unfold msgChars
  simp only [List.length_append, List.length_cons, List.length_singleton, h1, h2, h3]
  omega

/-- Wire round trip: parsing the serialized wire message recovers it exactly,
for every link and send time. -/
theorem jsonParse_wireMessage (L : P2PLink) (now : DateTime) :
    jsonParse (jsonStringify (wireMessage L now)) = some (wireMessage L now) := by
  rw [jsonStringify_wireMessage]
  unfold jsonParse
  rw [parseCore_msgChars L now ((msgChars L now).length + 1) (msgChars_length L now)]
theorem digitChar_mod_isDigit (n : Nat) : (digitChar (n % 10)).isDigit = true :=
  digitChar_isDigit (Nat.mod_lt _ (by omega))

theorem digitVal_digitChar_mod (n : Nat) : digitVal (digitChar (n % 10)) = n % 10 :=
  digitVal_digitChar (Nat.mod_lt _ (by omega))

theorem parseIsoDate_toISOString (d : DateTime) (h : isValidDT d = true) :
    parseIsoDate (toISOString d) = some d := by
  obtain ⟨y, mo, dd, hh, mi, s, ms⟩ := d
  simp only [isValidDT, Bool.and_eq_true, decide_eq_true_eq] at h
  obtain ⟨⟨⟨⟨⟨⟨⟨⟨h1, h2⟩, h3⟩, h4⟩, h5⟩, h6⟩, h7⟩, h8⟩, h9⟩ := h
  unfold toISOString pad4 pad2 pad3
  simp only [List.cons_append, List.nil_append, List.singleton_append]
  unfold parseIsoDate
  simp only [digitChar_mod_isDigit, Bool.and_self, if_true, digitVal_digitChar_mod]
  have hbound : daysInMonth y mo ≤ 31 := by
    unfold daysInMonth
    split_ifs <;> simp [isLeap]
  have hy : ((y / 1000 % 10 * 10 + y / 100 % 10) * 10 + y / 10 % 10) * 10 + y % 10 = y := by
    omega
  have hmo : mo / 10 % 10 * 10 + mo % 10 = mo := by omega
  have hdd : dd / 10 % 10 * 10 + dd % 10 = dd := by omega
  have hhh : hh / 10 % 10 * 10 + hh % 10 = hh := by omega
  have hmi : mi / 10 % 10 * 10 + mi % 10 = mi := by omega
  have hs : s / 10 % 10 * 10 + s % 10 = s := by omega
  have hms : (ms / 100 % 10 * 10 + ms / 10 % 10) * 10 + ms % 10 = ms := by omega
  rw [hy, hmo, hdd, hhh, hmi, hs, hms]
  rw [if_pos ⟨h2, h3, h4, h5, h6, h7, h8⟩]
theorem reviveLink_wire (L : P2PLink) (now : DateTime)
    (he : isValidDT L.expiresAt = true) (hn : isValidDT now = true) :
    reviveLink (Json.obj (wireLinkFields L now)) = deliveredLink L now := by
  have e1 : newDate (some (.str (toISOString L.expiresAt))) = .valid L.expiresAt := by
    simp only [newDate]
    rw [parseIsoDate_toISOString L.expiresAt he]
  have e2 : newDate (some (.str (toISOString now))) = .valid now := by
    simp only [newDate]
    rw [parseIsoDate_toISOString now hn]
  have k1 : ¬ idKey = expiresAtKey := by decide
  have k2 : ¬ originalUrlKey = expiresAtKey := by decide
  have k3 : ¬ shortUrlKey = expiresAtKey := by decide
  have k4 : ¬ titleKey = expiresAtKey := by decide
  have k5 : ¬ descriptionKey = expiresAtKey := by decide
  have k6 : ¬ createdAtKey = expiresAtKey := by decide
  have k7 : ¬ clicksKey = expiresAtKey := by decide
  have k8 : ¬ sharedByKey = expiresAtKey := by decide
  have m1 : ¬ idKey = createdAtKey := by decide
  have m2 : ¬ originalUrlKey = createdAtKey := by decide
  have m3 : ¬ shortUrlKey = createdAtKey := by decide
  have m4 : ¬ titleKey = createdAtKey := by decide
  have m5 : ¬ descriptionKey = createdAtKey := by decide
  have m6 : ¬ expiresAtKey = createdAtKey := by decide
  have m7 : ¬ clicksKey = createdAtKey := by decide
  have m8 : ¬ sharedByKey = createdAtKey := by decide
  unfold reviveLink deliveredLink wireLinkFields objFields jsGet setFieldR
  cases hd : L.description <;>
    simp [e1, e2, k1, k2, k3, k4, k5, k6, k7, k8, m1, m2, m3, m4, m5, m6, m7, m8]
theorem dataBody_wireMessage (L : P2PLink) (now : DateTime) (h : Nat)
    (he : isValidDT L.expiresAt = true) (hn : isValidDT now = true) :
    dataBody (wireMessage L now) (some h) = .ok [.linkReceived h (deliveredLink L now)] := by
  unfold dataBody wireMessage jsGet
  simp [(by decide : ¬ typeKey = linkKey), truthy, reviveLink_wire L now he hn]

theorem peerDataEvent_wire (st : ServiceState) (h : Nat) (hh : st.linkHandler = some h)
    (L : P2PLink) (now : DateTime)
    (he : isValidDT L.expiresAt = true) (hn : isValidDT now = true) :
    peerDataEvent st (jsonStringify (wireMessage L now)) =
      [.linkReceived h (deliveredLink L now)] := by
  unfold peerDataEvent
  rw [jsonParse_wireMessage, hh]
  simp only [dataBody_wireMessage L now h he hn]

/-! ### Registry map helpers -/

theorem find?_map_update (l : List P2PConnection) (cid : JStr)
    (f : P2PConnection → P2PConnection) (hid : ∀ c, (f c).id = c.id) :
    (l.map (fun c => if c.id = cid then f c else c)).find? (fun c => decide (c.id = cid)) =
      (l.find? (fun c => decide (c.id = cid))).map f := by
  induction l with
  | nil => rfl
  | cons c t ih =>
    by_cases hc : c.id = cid
    · simp only [List.map_cons, if_pos hc]
      rw [List.find?_cons_of_pos _ (by simp [hid, hc]),
        List.find?_cons_of_pos _ (by simp [hc])]
      rfl
    · simp only [List.map_cons, if_neg hc]
      rw [List.find?_cons_of_neg _ (by simp [hc]), List.find?_cons_of_neg _ (by simp [hc])]
      exact ih

theorem lookupConn_updateConn (st : ServiceState) (cid : JStr)
    (f : P2PConnection → P2PConnection) (hid : ∀ c, (f c).id = c.id) :
    lookupConn (updateConn st cid f) cid = (lookupConn st cid).map f := by
  unfold lookupConn updateConn
  exact find?_map_update st.connections cid f hid

theorem find?_filter_ne (l : List P2PConnection) (cid : JStr) :
    (l.filter (fun c => decide (c.id ≠ cid))).find? (fun c => decide (c.id = cid)) = none := by
  induction l with
  | nil => rfl
  | cons c t ih =>
    by_cases hc : c.id = cid
    · simp only [List.filter_cons]
      rw [if_neg (by simp [hc])]
      exact ih
    · simp only [List.filter_cons]
      rw [if_pos (by simp [hc])]
      rw [List.find?_cons_of_neg _ (by simp [hc])]
      exact ih

theorem find?_filter_ne_other (l : List P2PConnection) (cid id : JStr) (h : id ≠ cid) :
    (l.filter (fun c => decide (c.id ≠ cid))).find? (fun c => decide (c.id = id)) =
      l.find? (fun c => decide (c.id = id)) := by
  induction l with
  | nil => rfl
  | cons c t ih =>
    by_cases hc : c.id = cid
    · simp only [List.filter_cons]
      rw [if_neg (by simp [hc])]
      rw [ih, List.find?_cons_of_neg _ (by simp [hc]; exact Ne.symm h)]
    · simp only [List.filter_cons]
      rw [if_pos (by simp [hc])]
      by_cases hi : c.id = id
      · rw [List.find?_cons_of_pos _ (by simp [hi]), List.find?_cons_of_pos _ (by simp [hi])]
      · rw [List.find?_cons_of_neg _ (by simp [hi]), List.find?_cons_of_neg _ (by simp [hi])]
        exact ih

theorem lookup_mapSet_self (l : List P2PConnection) (conn : P2PConnection) :
    (mapSet l conn).find? (fun c => decide (c.id = conn.id)) = some conn := by
  unfold mapSet
  by_cases hmem : l.any (fun c => decide (c.id = conn.id))
  · rw [if_pos hmem]
    induction l with
    | nil => simp at hmem
    | cons c t ih =>
      by_cases hc : c.id = conn.id
      · simp only [List.map_cons, if_pos hc]
        rw [List.find?_cons_of_pos _ (by simp)]
      · simp only [List.map_cons, if_neg hc]
        rw [List.find?_cons_of_neg _ (by simp [hc])]
        exact ih (by simpa [List.any_cons, hc] using hmem)
  · rw [if_neg hmem]
    induction l with
    | nil =>
      rw [List.nil_append, List.find?_cons_of_pos _ (by simp)]
    | cons c t ih =>
      have hc : ¬ c.id = conn.id := by
        intro hco
        exact hmem (by simp [List.any_cons, hco])
      rw [List.cons_append, List.find?_cons_of_neg _ (by simp [hc])]
      exact ih (fun ht => hmem (by simp [List.any_cons]; right; simpa using ht))

theorem find?_map_replace_ne (l : List P2PConnection) (conn : P2PConnection) (id : JStr)
    (h : id ≠ conn.id) :
    (l.map (fun c => if c.id = conn.id then conn else c)).find? (fun c => decide (c.id = id)) =
      l.find? (fun c => decide (c.id = id)) := by
  induction l with
  | nil => rfl
  | cons c t ih =>
    by_cases hc : c.id = conn.id
    · simp only [List.map_cons, if_pos hc]
      rw [List.find?_cons_of_neg _ (by simp; exact Ne.symm h),
        List.find?_cons_of_neg _ (by simp [hc]; exact Ne.symm h)]
      exact ih
    · simp only [List.map_cons, if_neg hc]
      by_cases hi : c.id = id
      · rw [List.find?_cons_of_pos _ (by simp [hi]), List.find?_cons_of_pos _ (by simp [hi])]
      · rw [List.find?_cons_of_neg _ (by simp [hi]), List.find?_cons_of_neg _ (by simp [hi])]
        exact ih

theorem lookup_mapSet_ne (l : List P2PConnection) (conn : P2PConnection) (id : JStr)
    (h : id ≠ conn.id) :
    (mapSet l conn).find? (fun c => decide (c.id = id)) =
      l.find? (fun c => decide (c.id = id)) := by
  unfold mapSet
  by_cases hmem : l.any (fun c => decide (c.id = conn.id))
  · rw [if_pos hmem]
    exact find?_map_replace_ne l conn id h
  · rw [if_neg hmem, List.find?_append]
    rw [show [conn].find? (fun c => decide (c.id = id)) = none from by
      rw [List.find?_cons_of_neg _ (by simp; exact Ne.symm h)]
      rfl]
    exact Option.or_none
theorem dataBody_handler (m : Json) (ho : Option Nat) (calls : List CallbackCall)
    (h : dataBody m ho = .ok calls) :
    ∀ call ∈ calls, ∃ hh l, ho = some hh ∧ call = .linkReceived hh l := by
  unfold dataBody at h
  split at h
  · exact absurd h (by simp)
  · injection h with h
    subst h
    intro call hc
    split at hc
    · split at hc
      · split at hc
        · split at hc
          · split at hc
            · simp only [List.mem_singleton] at hc
              exact ⟨_, _, rfl, hc⟩
            · simp at hc
          · simp at hc
        · simp at hc
      · simp at hc
    · simp at hc

theorem dataBody_drop (m : Json) (ho : Option Nat)
    (h : m = .null ∨ jsGet m typeKey ≠ some (.str linkShareTag) ∨
      jsGet m linkKey = none ∨ ∃ lv, jsGet m linkKey = some lv ∧ truthy lv = false) :
    dataBody m ho = .error () ∨ dataBody m ho = .ok [] := by
  unfold dataBody
  split
  · exact Or.inl rfl
  · right
    rcases h with rfl | h | h | ⟨lv, hlv, htr⟩
    · next hne => exact absurd rfl hne
    · split
      · next t ht =>
        rw [if_neg (fun hteq => h (by rw [ht, hteq]))]
      · rfl
    · split
      · next t ht =>
        by_cases htag : t = linkShareTag
        · rw [if_pos htag, h]
        · rw [if_neg htag]
      · rfl
    · split
      · next t ht =>
        by_cases htag : t = linkShareTag
        · rw [if_pos htag, hlv]
          simp [htr]
        · rw [if_neg htag]
      · rfl
/-! ### Close / share / event operation facts -/

theorem lookupConn_closeConnection_self (st : ServiceState) (cid : JStr) :
    lookupConn (closeConnection st cid) cid = none := by
  unfold closeConnection
  cases h : lookupConn st cid with
  | none => exact h
  | some c => exact find?_filter_ne st.connections cid

theorem closeConnection_unknown (st : ServiceState) (cid : JStr)
    (h : lookupConn st cid = none) : closeConnection st cid = st := by
  unfold closeConnection
  rw [h]

theorem closeConnection_twice (st : ServiceState) (cid : JStr) :
    closeConnection (closeConnection st cid) cid = closeConnection st cid :=
  closeConnection_unknown _ _ (lookupConn_closeConnection_self st cid)

theorem closeConnection_not_mem (st : ServiceState) (cid : JStr) :
    ∀ c ∈ (closeConnection st cid).connections, c.id ≠ cid := by
  unfold closeConnection
  cases h : lookupConn st cid with
  | none =>
    intro c hc hcid
    have := List.find?_eq_none.mp h c hc
    simp [hcid] at this
  | some x =>
    intro c hc
    simp only [List.mem_filter, decide_eq_true_eq] at hc
    exact hc.2

theorem shareLink_unknown (st : ServiceState) (cid : JStr) (L : P2PLink) (now : DateTime)
    (h : lookupConn st cid = none) : shareLink st cid L now = (st, false) := by
  unfold shareLink
  rw [h]

theorem shareLink_disconnected (st : ServiceState) (cid : JStr) (L : P2PLink) (now : DateTime)
    (conn : P2PConnection) (h : lookupConn st cid = some conn)
    (hc : conn.isConnected = false) : shareLink st cid L now = (st, false) := by
  unfold shareLink
  rw [h]
  simp [hc]

theorem shareLink_connected (st : ServiceState) (cid : JStr) (L : P2PLink) (now : DateTime)
    (conn : P2PConnection) (h : lookupConn st cid = some conn)
    (hc : conn.isConnected = true) :
    shareLink st cid L now =
      (updateConn st cid (fun c => { c with peer :=
        { c.peer with sent := c.peer.sent ++ [jsonStringify (wireMessage L now)] } }), true) := by
  unfold shareLink
  rw [h]
  simp [hc]

theorem map_update_ids (l : List P2PConnection) (cid : JStr)
    (f : P2PConnection → P2PConnection) (hid : ∀ c, (f c).id = c.id) :
    (l.map (fun c => if c.id = cid then f c else c)).map (fun c => c.id) =
      l.map (fun c => c.id) := by
  induction l with
  | nil => rfl
  | cons c t ih =>
    by_cases hc : c.id = cid <;> simp [hc, hid, ih]

theorem peerCloseEvent_ids (st : ServiceState) (cid : JStr) :
    (peerCloseEvent st cid).1.connections.map (fun c => c.id) =
      st.connections.map (fun c => c.id) := by
  unfold peerCloseEvent
  cases h : lookupConn st cid with
  | none => rfl
  | some c => exact map_update_ids st.connections cid _ (fun c => rfl)

theorem peerCloseEvent_flag (st : ServiceState) (cid : JStr) (conn : P2PConnection)
    (h : lookupConn st cid = some conn) :
    lookupConn (peerCloseEvent st cid).1 cid = some { conn with isConnected := false } := by
  have hl := lookupConn_updateConn st cid (fun c => { c with isConnected := false })
    (fun c => rfl)
  rw [h] at hl
  unfold peerCloseEvent
  rw [h]
  exact hl

theorem peerErrorEvent_id (st : ServiceState) (cid : JStr) : peerErrorEvent st cid = st := rfl

theorem peerConnectEvent_calls (st : ServiceState) (cid : JStr) (call : CallbackCall)
    (h : call ∈ (peerConnectEvent st cid).2) :
    ∃ hh, st.statusHandler = some hh ∧ call = .statusChange hh cid true := by
  unfold peerConnectEvent at h
  split at h
  · simp at h
  · split at h
    · simp only [List.mem_singleton] at h
      exact ⟨_, by assumption, h⟩
    · simp at h

theorem peerDataEvent_handler (st : ServiceState) (raw : JStr) (call : CallbackCall)
    (h : call ∈ peerDataEvent st raw) :
    ∃ hh l, st.linkHandler = some hh ∧ call = .linkReceived hh l := by
  unfold peerDataEvent at h
  split at h
  · simp at h
  · split at h
    · simp at h
    · next calls hok => exact dataBody_handler _ _ _ hok call h

theorem peerDataEvent_drop (st : ServiceState) (raw : JStr)
    (h : jsonParse raw = none ∨ ∃ m, jsonParse raw = some m ∧
      (m = .null ∨ jsGet m typeKey ≠ some (.str linkShareTag) ∨
       jsGet m linkKey = none ∨ ∃ lv, jsGet m linkKey = some lv ∧ truthy lv = false)) :
    peerDataEvent st raw = [] := by
  unfold peerDataEvent
  rcases h with h | ⟨m, hm, hcase⟩
  · rw [h]
  · rw [hm]
    rcases dataBody_drop m st.linkHandler hcase with hd | hd <;> simp [hd]
/-! ### Trace provenance -/

theorem run_append (ops : List Op) (op : Op) :
    run (ops ++ [op]) = step (run ops) op := by
  unfold run
  rw [List.foldl_append]
  rfl

theorem find?_map_update_ne (l : List P2PConnection) (cid id : JStr)
    (f : P2PConnection → P2PConnection) (hid : ∀ c, (f c).id = c.id) (h : id ≠ cid) :
    (l.map (fun c => if c.id = cid then f c else c)).find? (fun c => decide (c.id = id)) =
      l.find? (fun c => decide (c.id = id)) := by
  induction l with
  | nil => rfl
  | cons c t ih =>
    by_cases hc : c.id = cid
    · simp only [List.map_cons, if_pos hc]
      rw [List.find?_cons_of_neg _ (by simp [hid, hc]; exact Ne.symm h),
        List.find?_cons_of_neg _ (by simp [hc]; exact Ne.symm h)]
      exact ih
    · simp only [List.map_cons, if_neg hc]
      by_cases hi : c.id = id
      · rw [List.find?_cons_of_pos _ (by simp [hi]), List.find?_cons_of_pos _ (by simp [hi])]
      · rw [List.find?_cons_of_neg _ (by simp [hi]), List.find?_cons_of_neg _ (by simp [hi])]
        exact ih

theorem lookupConn_updateConn_ne (st : ServiceState) (cid id : JStr)
    (f : P2PConnection → P2PConnection) (hid : ∀ c, (f c).id = c.id) (h : id ≠ cid) :
    lookupConn (updateConn st cid f) id = lookupConn st id :=
  find?_map_update_ne st.connections cid id f hid h

theorem lookupConn_set_state (st : ServiceState) (l : List P2PConnection) (id : JStr) :
    lookupConn { st with connections := l } id = l.find? (fun c => decide (c.id = id)) := rfl

theorem lookup_mapSet_self' (l : List P2PConnection) (conn : P2PConnection) (id : JStr)
    (hid : conn.id = id) :
    (mapSet l conn).find? (fun c => decide (c.id = id)) = some conn := by
  subst hid
  exact lookup_mapSet_self l conn

theorem createConnection_fst (st : ServiceState) (fid : JStr) :
    (createConnection st fid).1 = { st with connections := mapSet st.connections (P2PConnection.mk fid (Peer.mk true false [] []) false true none none) } := rfl

theorem lookup_mapSet_new (l : List P2PConnection) (fid : JStr) (peer : Peer)
    (b1 b2 : Bool) (r : Option Json) (cc : Option JStr) :
    (mapSet l (P2PConnection.mk fid peer b1 b2 r cc)).find? (fun c => decide (c.id = fid)) =
      some (P2PConnection.mk fid peer b1 b2 r cc) :=
  lookup_mapSet_self l (P2PConnection.mk fid peer b1 b2 r cc)

theorem joinConnection_ok (st : ServiceState) (fid : JStr) (data : Json)
    (st2 : ServiceState) (c2 : P2PConnection)
    (h : joinConnection st fid data = .ok (st2, c2)) :
    st2 = updateConn
      { st with connections := mapSet st.connections (P2PConnection.mk fid (Peer.mk false false [] []) false false (jsGet data idKey) none) }
      fid (fun c => { c with peer :=
        { c.peer with signaled := c.peer.signaled ++ [data] } }) := by
  unfold joinConnection at h
  split at h
  · simp at h
  · injection h with h
    rw [Prod.mk.injEq] at h
    exact h.1.symm

theorem lookupConn_regLink (st : ServiceState) (hh : Nat) (id : JStr) :
    lookupConn (onLinkReceivedReg st hh) id = lookupConn st id := by
  unfold onLinkReceivedReg
  cases st.linkHandler <;> rfl

theorem lookupConn_regStatus (st : ServiceState) (hh : Nat) (id : JStr) :
    lookupConn (onConnectionStatusChangeReg st hh) id = lookupConn st id := by
  unfold onConnectionStatusChangeReg
  cases st.statusHandler <;> rfl

theorem conn_provenance (ops : List Op) :
    ∀ id conn, lookupConn (run ops) id = some conn →
      (conn.isInitiator = true → Op.create id ∈ ops) ∧
      (∀ cc, conn.connectionCode = some cc → ∃ d, Op.signalEvt id d ∈ ops) := by
  induction ops using List.reverseRecOn with
  | nil =>
    intro id conn h
    simp [run, initState, lookupConn] at h
  | append_singleton ops op ih =>
    intro id conn h
    rw [run_append] at h
    have lift : (conn.isInitiator = true → Op.create id ∈ ops) ∧
        (∀ cc, conn.connectionCode = some cc → ∃ d, Op.signalEvt id d ∈ ops) →
        (conn.isInitiator = true → Op.create id ∈ ops ++ [op]) ∧
        (∀ cc, conn.connectionCode = some cc → ∃ d, Op.signalEvt id d ∈ ops ++ [op]) :=
      fun hp => ⟨fun hi => List.mem_append_left _ (hp.1 hi),
        fun cc hcc => (hp.2 cc hcc).imp (fun d hd => List.mem_append_left _ hd)⟩
    cases op with
    | create fid =>
      simp only [step] at h
      rw [createConnection_fst, lookupConn_set_state] at h
      by_cases hid : id = fid
      · subst hid
        rw [lookup_mapSet_new] at h
        injection h with h
        subst h
        refine ⟨fun _ => List.mem_append_right _ (by simp), fun cc hcc => ?_⟩
        simp at hcc
      · rw [lookup_mapSet_ne _ _ _ hid] at h
        exact lift (ih id conn h)
    | join fid code =>
      simp only [step] at h
      unfold uiJoinConnection at h
      cases hp : jsonParse code with
      | none =>
        simp only [hp] at h
        exact lift (ih id conn h)
      | some data =>
        cases hj : joinConnection (run ops) fid data with
        | error e =>
          simp only [hp, hj] at h
          exact lift (ih id conn h)
        | ok pr =>
          obtain ⟨st2, c2⟩ := pr
          simp only [hp, hj] at h
          rw [joinConnection_ok _ _ _ _ _ hj] at h
          by_cases hid : id = fid
          · subst hid
            rw [lookupConn_updateConn _ _ _ (by intro c; rfl), lookupConn_set_state,
              lookup_mapSet_new, Option.map_some'] at h
            injection h with h
            subst h
            refine ⟨fun hi => by simp at hi, fun cc hcc => by simp at hcc⟩
          · rw [lookupConn_updateConn_ne _ _ _ _ (by intro c; rfl) hid, lookupConn_set_state,
              lookup_mapSet_ne _ _ _ hid] at h
            exact lift (ih id conn h)
    | share cid L now =>
      simp only [step] at h
      cases hs : lookupConn (run ops) cid with
      | none =>
        rw [shareLink_unknown _ _ _ _ hs] at h
        exact lift (ih id conn h)
      | some c2 =>
        cases hc : c2.isConnected with
        | false =>
          rw [shareLink_disconnected _ _ _ _ _ hs hc] at h
          exact lift (ih id conn h)
        | true =>
          rw [shareLink_connected _ _ _ _ _ hs hc] at h
          by_cases hid : id = cid
          · subst hid
            rw [lookupConn_updateConn _ _ _ (by intro c; rfl), hs, Option.map_some'] at h
            injection h with h
            subst h
            exact lift (ih id c2 hs)
          · rw [lookupConn_updateConn_ne _ _ _ _ (by intro c; rfl) hid] at h
            exact lift (ih id conn h)
    | signalEvt sid payload =>
      simp only [step] at h
      unfold peerSignalEvent at h
      by_cases hid : id = sid
      · subst hid
        rw [lookupConn_updateConn _ _ _ (by intro c; rfl)] at h
        cases hs : lookupConn (run ops) id with
        | none => rw [hs] at h; simp at h
        | some c2 =>
          rw [hs, Option.map_some'] at h
          injection h with h
          subst h
          obtain ⟨h1, h2⟩ := ih id c2 hs
          exact ⟨fun hi => List.mem_append_left _ (h1 hi),
            fun cc hcc => ⟨payload, List.mem_append_right _ (by simp)⟩⟩
      · rw [lookupConn_updateConn_ne _ _ _ _ (by intro c; rfl) hid] at h
        exact lift (ih id conn h)
    | connectEvt cid =>
      simp only [step] at h
      unfold peerConnectEvent at h
      cases hs : lookupConn (run ops) cid with
      | none =>
        simp only [hs] at h
        exact lift (ih id conn h)
      | some c2 =>
        simp only [hs] at h
        by_cases hid : id = cid
        · subst hid
          rw [lookupConn_updateConn _ _ _ (by intro c; rfl), hs, Option.map_some'] at h
          injection h with h
          subst h
          exact lift (ih id c2 hs)
        · rw [lookupConn_updateConn_ne _ _ _ _ (by intro c; rfl) hid] at h
          exact lift (ih id conn h)
    | dataEvt raw =>
      exact lift (ih id conn h)
    | closeEvt cid =>
      simp only [step] at h
      unfold peerCloseEvent at h
      cases hs : lookupConn (run ops) cid with
      | none =>
        simp only [hs] at h
        exact lift (ih id conn h)
      | some c2 =>
        simp only [hs] at h
        by_cases hid : id = cid
        · subst hid
          rw [lookupConn_updateConn _ _ _ (by intro c; rfl), hs, Option.map_some'] at h
          injection h with h
          subst h
          exact lift (ih id c2 hs)
        · rw [lookupConn_updateConn_ne _ _ _ _ (by intro c; rfl) hid] at h
          exact lift (ih id conn h)
    | errorEvt cid =>
      exact lift (ih id conn h)
    | close cid =>
      simp only [step] at h
      by_cases hid : id = cid
      · subst hid
        rw [lookupConn_closeConnection_self] at h
        simp at h
      · unfold closeConnection at h
        cases hs : lookupConn (run ops) cid with
        | none =>
          simp only [hs] at h
          exact lift (ih id conn h)
        | some c2 =>
          simp only [hs] at h
          rw [lookupConn_set_state, find?_filter_ne_other _ _ _ hid] at h
          exact lift (ih id conn h)
    | regLink hh =>
      simp only [step] at h
      rw [lookupConn_regLink] at h
      exact lift (ih id conn h)
    | regStatus hh =>
      simp only [step] at h
      rw [lookupConn_regStatus] at h
      exact lift (ih id conn h)
    | destroyAll =>
      simp only [step] at h
      simp [destroyService, lookupConn] at h
/-! ### Field lookup in delivered objects -/

theorem find?_overwrite (fs : List (JStr × RVal)) (k : JStr) (v : RVal) :
    fs.any (fun p => decide (p.1 = k)) = true →
    (fs.map (fun p => if p.1 = k then (k, v) else p)).find? (fun p => decide (p.1 = k)) =
      some (k, v) := by
  induction fs with
  | nil => intro h; exact Bool.noConfusion h
  | cons q t ih =>
    intro h
    by_cases hq : q.1 = k
    · rw [List.map_cons, if_pos hq, List.find?_cons_of_pos _ (by exact decide_eq_true rfl)]
    · rw [List.map_cons, if_neg hq,
        List.find?_cons_of_neg _ (by intro hc; exact hq (of_decide_eq_true hc))]
      apply ih
      rw [List.any_cons, decide_eq_false hq, Bool.false_or] at h
      exact h

theorem find?_append_new (fs : List (JStr × RVal)) (k : JStr) (v : RVal) :
    ¬ fs.any (fun p => decide (p.1 = k)) = true →
    (fs ++ [(k, v)]).find? (fun p => decide (p.1 = k)) = some (k, v) := by
  induction fs with
  | nil =>
    intro _
    rw [List.nil_append, List.find?_cons_of_pos _ (by exact decide_eq_true rfl)]
  | cons q t ih =>
    intro h
    rw [List.any_cons] at h
    have hq : ¬ decide (q.1 = k) = true := by
      intro hc
      exact h (by rw [hc, Bool.true_or])
    rw [List.cons_append, List.find?_cons_of_neg _ (by exact hq)]
    apply ih
    intro hc
    exact h (by rw [hc, Bool.or_true])

theorem rget_setFieldR_self (fs : List (JStr × RVal)) (k : JStr) (v : RVal) :
    rget (setFieldR fs k v) k = some v := by
  unfold rget setFieldR
  by_cases hmem : fs.any (fun p => decide (p.1 = k)) = true
  · rw [if_pos hmem, find?_overwrite fs k v hmem]
    rfl
  · rw [if_neg hmem, find?_append_new fs k v hmem]
    rfl

theorem find?_overwrite_ne (fs : List (JStr × RVal)) (k k2 : JStr) (v : RVal)
    (h : ¬ k2 = k) :
    (fs.map (fun p => if p.1 = k then (k, v) else p)).find? (fun p => decide (p.1 = k2)) =
      fs.find? (fun p => decide (p.1 = k2)) := by
  induction fs with
  | nil => rfl
  | cons q t ih =>
    by_cases hq : q.1 = k
    · rw [List.map_cons, if_pos hq,
        List.find?_cons_of_neg _ (by intro hc; exact h (of_decide_eq_true hc).symm),
        List.find?_cons_of_neg _
          (by intro hc; exact h ((hq.symm.trans (of_decide_eq_true hc)).symm))]
      exact ih
    · rw [List.map_cons, if_neg hq]
      by_cases hq2 : q.1 = k2
      · rw [List.find?_cons_of_pos _ (by exact decide_eq_true hq2),
          List.find?_cons_of_pos _ (by exact decide_eq_true hq2)]
      · rw [List.find?_cons_of_neg _ (by intro hc; exact hq2 (of_decide_eq_true hc)),
          List.find?_cons_of_neg _ (by intro hc; exact hq2 (of_decide_eq_true hc))]
        exact ih

theorem rget_setFieldR_ne (fs : List (JStr × RVal)) (k k2 : JStr) (v : RVal)
    (h : ¬ k2 = k) :
    rget (setFieldR fs k v) k2 = rget fs k2 := by
  unfold rget setFieldR
  by_cases hmem : fs.any (fun p => decide (p.1 = k)) = true
  · rw [if_pos hmem, find?_overwrite_ne fs k k2 v h]
  · rw [if_neg hmem]
    congr 1
    rw [List.find?_append]
    rw [show List.find? (fun p => decide (p.1 = k2)) [(k, v)] = none from by
      rw [List.find?_cons_of_neg _ (by intro hc; exact h (of_decide_eq_true hc).symm)]
      rfl]
    exact Option.or_none

/-! ### getConnectionCode inversion -/

theorem getConnectionCode_some (st : ServiceState) (cid : JStr) (code : JStr)
    (h : getConnectionCode st cid = some code) :
    ∃ conn, lookupConn st cid = some conn ∧ conn.isInitiator = true ∧
      conn.connectionCode = some code := by
  unfold getConnectionCode at h
  split at h
  · exact absurd h (by simp)
  · next conn hconn =>
    split at h
    · next hini =>
      split at h
      · next c hc =>
        split at h
        · exact absurd h (by simp)
        · refine ⟨conn, hconn, by simpa using hini, ?_⟩
          rw [hc]
          injection h with h
          rw [h]
      · exact absurd h (by simp)
    · exact absurd h (by simp)

theorem getConnectionCode_responder (st : ServiceState) (cid : JStr)
    (conn : P2PConnection) (h : lookupConn st cid = some conn)
    (hr : conn.isInitiator = false) : getConnectionCode st cid = none := by
  unfold getConnectionCode
  rw [h]
  simp [hr]

/-! ### Delivered-link field projections -/

theorem deliveredLink_fields (L : P2PLink) (now : DateTime) :
    rget (deliveredLink L now) idKey = some (.js (.str L.id)) ∧
    rget (deliveredLink L now) originalUrlKey = some (.js (.str L.originalUrl)) ∧
    rget (deliveredLink L now) shortUrlKey = some (.js (.str L.shortUrl)) ∧
    rget (deliveredLink L now) titleKey = some (.js (.str L.title)) ∧
    rget (deliveredLink L now) clicksKey = some (.js (.num L.clicks)) ∧
    rget (deliveredLink L now) expiresAtKey = some (.date (.valid L.expiresAt)) ∧
    rget (deliveredLink L now) createdAtKey = some (.date (.valid now)) ∧
    rget (deliveredLink L now) sharedByKey = some (.js (.str peerTag)) := by
  cases hd : L.description <;> simp +decide [deliveredLink, rget, hd]

theorem wireLinkFields_stamped (L : P2PLink) (now : DateTime) :
    jsGet (Json.obj (wireLinkFields L now)) sharedByKey = some (.str peerTag) ∧
    jsGet (Json.obj (wireLinkFields L now)) createdAtKey =
      some (.str (toISOString now)) := by
  cases hd : L.description <;> simp +decide [wireLinkFields, jsGet, hd]
/-! ### The claims -/

/-- C1 (amended): for every valid link record `L`, sending `L` with `shareLink`
over a connected channel and decoding it in the receiver's data handler delivers
exactly one link object whose `id`, `originalUrl`, `shortUrl`, `title` and
`clicks` equal `L`'s and whose `expiresAt` is a reconstructed time value equal
to `L`'s original; but its `createdAt` is the time of sending, not `L`'s
original, and its `sharedBy` is the constant `'peer'` regardless of `L`'s. -/
theorem C1_share_roundtrip_amended (st : ServiceState) (h : Nat) (L : P2PLink)
    (now : DateTime) (hh : st.linkHandler = some h)
    (he : isValidDT L.expiresAt = true) (hn : isValidDT now = true) :
    peerDataEvent st (jsonStringify (wireMessage L now)) =
      [.linkReceived h (deliveredLink L now)] ∧
    rget (deliveredLink L now) idKey = some (.js (.str L.id)) ∧
    rget (deliveredLink L now) originalUrlKey = some (.js (.str L.originalUrl)) ∧
    rget (deliveredLink L now) shortUrlKey = some (.js (.str L.shortUrl)) ∧
    rget (deliveredLink L now) titleKey = some (.js (.str L.title)) ∧
    rget (deliveredLink L now) clicksKey = some (.js (.num L.clicks)) ∧
    rget (deliveredLink L now) expiresAtKey = some (.date (.valid L.expiresAt)) ∧
    rget (deliveredLink L now) createdAtKey = some (.date (.valid now)) ∧
    rget (deliveredLink L now) sharedByKey = some (.js (.str peerTag)) :=
  ⟨peerDataEvent_wire st h hh L now he hn, deliveredLink_fields L now⟩

/-- C1 witness: the amended round trip evaluated on the concrete link `exL`. -/
theorem C1_share_roundtrip_witness :
    peerDataEvent stHandler (jsonStringify (wireMessage exL exNow)) =
      [.linkReceived 7 (deliveredLink exL exNow)] ∧
    rget (deliveredLink exL exNow) expiresAtKey =
      some (.date (.valid exL.expiresAt)) :=
  ⟨(C1_share_roundtrip_amended stHandler 7 exL exNow rfl (by decide) (by decide)).1,
   (C1_share_roundtrip_amended stHandler 7 exL exNow rfl (by decide)
     (by decide)).2.2.2.2.2.2.1⟩

/-- C1 counterexample: the link `exL` has `sharedBy = "alice"` and a
`createdAt` different from the send time `exNow`, yet the delivered object
carries `sharedBy = "peer"` and `createdAt` equal to the send time — so the
delivered link is not equal to `exL` in every non-timestamp field, and
`createdAt` is not reconstructed equal to the original. -/
theorem C1_share_roundtrip_counterexample :
    peerDataEvent stHandler (jsonStringify (wireMessage exL exNow)) =
      [.linkReceived 7 (deliveredLink exL exNow)] ∧
    exL.sharedBy = some aliceName ∧
    rget (deliveredLink exL exNow) sharedByKey = some (.js (.str peerTag)) ∧
    ¬ peerTag = aliceName ∧
    rget (deliveredLink exL exNow) createdAtKey = some (.date (.valid exNow)) ∧
    ¬ exNow = exL.createdAt := by
  refine ⟨rfl, rfl, rfl, by decide, rfl, by decide⟩

/-- C2: a received byte string that is not a well-formed envelope — not
parseable JSON, a `null` message, a wrong or missing type tag, or a missing or
falsy `link` member — produces no `onLinkReceived` invocation at all, and the
data event leaves the service state unchanged (the throw is contained by the
handler's `try`). -/
theorem C2_malformed_dropped (st : ServiceState) (raw : JStr)
    (h : jsonParse raw = none ∨ ∃ m, jsonParse raw = some m ∧
      (m = .null ∨ jsGet m typeKey ≠ some (.str linkShareTag) ∨
       jsGet m linkKey = none ∨ ∃ lv, jsGet m linkKey = some lv ∧ truthy lv = false)) :
    peerDataEvent st raw = [] ∧ step st (.dataEvt raw) = st :=
  ⟨peerDataEvent_drop st raw h, rfl⟩

/-- C2 witness: the unparseable input `"not json"` is dropped. -/
theorem C2_malformed_dropped_witness :
    peerDataEvent stHandler notJson = [] ∧ step stHandler (.dataEvt notJson) = stHandler :=
  C2_malformed_dropped stHandler notJson (Or.inl rfl)

/-- C3: when the pasted signaling code fails to decode, the join handler
returns no connection and the state — in particular the length of
`listConnections` — is unchanged. -/
theorem C3_join_malformed (st : ServiceState) (freshId code : JStr)
    (h : jsonParse code = none) :
    uiJoinConnection st freshId code = (st, none) ∧
    (getConnections (uiJoinConnection st freshId code).1).length =
      (getConnections st).length := by
  have h1 : uiJoinConnection st freshId code = (st, none) := by
    unfold uiJoinConnection
    rw [h]
  exact ⟨h1, by rw [h1]⟩

/-- C3 witness: joining with the code `"not json"` stores nothing. -/
theorem C3_join_malformed_witness :
    uiJoinConnection initState aId notJson = (initState, none) ∧
    (getConnections (uiJoinConnection initState aId notJson).1).length =
      (getConnections initState).length :=
  C3_join_malformed initState aId notJson rfl

/-- C4: `shareLink` returns `false` and changes nothing when the connection id
is unknown or the connection is not yet connected; on a connected connection it
returns `true` and the serialized envelope is appended to that connection's
send queue. -/
theorem C4_shareLink_gating (st : ServiceState) (cid : JStr) (L : P2PLink)
    (now : DateTime) :
    (lookupConn st cid = none → shareLink st cid L now = (st, false)) ∧
    (∀ conn, lookupConn st cid = some conn → conn.isConnected = false →
      shareLink st cid L now = (st, false)) ∧
    (∀ conn, lookupConn st cid = some conn → conn.isConnected = true →
      (shareLink st cid L now).2 = true ∧
      lookupConn (shareLink st cid L now).1 cid = some { conn with peer :=
        { conn.peer with sent :=
          conn.peer.sent ++ [jsonStringify (wireMessage L now)] } }) := by
  refine ⟨fun h => shareLink_unknown st cid L now h,
    fun conn h hc => shareLink_disconnected st cid L now conn h hc,
    fun conn h hc => ?_⟩
  rw [shareLink_connected st cid L now conn h hc]
  refine ⟨rfl, ?_⟩
  have hl := lookupConn_updateConn st cid (fun c => { c with peer :=
    { c.peer with sent := c.peer.sent ++ [jsonStringify (wireMessage L now)] } })
    (fun c => rfl)
  rw [h, Option.map_some'] at hl
  exact hl

/-- C4 witness: sharing on the disconnected `stDiscW` fails, on the connected
`stConnW` succeeds. -/
theorem C4_shareLink_gating_witness :
    shareLink stDiscW aId exL exNow = (stDiscW, false) ∧
    (shareLink stConnW aId exL exNow).2 = true :=
  ⟨(C4_shareLink_gating stDiscW aId exL exNow).2.1 connD rfl rfl,
   ((C4_shareLink_gating stConnW aId exL exNow).2.2 connW rfl rfl).1⟩

/-- C5 (amended): a well-framed envelope is always delivered, whatever its
timestamp strings contain: the data handler performs no timestamp validation,
and the delivered object's `createdAt` is whatever `new Date` makes of the
transmitted string — the Invalid Date when it is unparseable — rather than the
record being rejected. -/
theorem C5_invalid_timestamp_amended (lv : Json) (h : Nat)
    (htr : truthy lv = true) :
    dataBody (.obj [(typeKey, .str linkShareTag), (linkKey, lv)]) (some h) =
      .ok [.linkReceived h (reviveLink lv)] ∧
    rget (reviveLink lv) createdAtKey =
      some (.date (newDate (jsGet lv createdAtKey))) := by
  constructor
  · unfold dataBody
    simp +decide [jsGet, htr]
  · exact rget_setFieldR_self _ _ _

/-- C5 witness: the amended delivery evaluated on the concrete envelope
`badMsg`. -/
theorem C5_invalid_timestamp_witness :
    dataBody badMsg (some 5) = .ok [.linkReceived 5 (reviveLink badLink)] ∧
    rget (reviveLink badLink) createdAtKey =
      some (.date (newDate (jsGet badLink createdAtKey))) :=
  C5_invalid_timestamp_amended badLink 5 rfl

/-- C5 counterexample: the envelope `badMsg` carries unparseable timestamp
strings, yet the receive path delivers it to `onLinkReceived` with both
timestamps revived to the Invalid Date — the record is not rejected. -/
theorem C5_invalid_timestamp_counterexample :
    peerDataEvent stHandler5 (jsonStringify badMsg) =
      [.linkReceived 5 (reviveLink badLink)] ∧
    rget (reviveLink badLink) createdAtKey = some (.date .invalid) ∧
    rget (reviveLink badLink) expiresAtKey = some (.date .invalid) :=
  ⟨rfl, rfl, rfl⟩

/-- C6: `closeConnection` removes the closed id from `getConnections`, calling
it twice with the same id equals calling it once, and on an unknown id it is a
no-op — no path throws. -/
theorem C6_close_idempotent (st : ServiceState) (cid : JStr) :
    (∀ c ∈ getConnections (closeConnection st cid), c.id ≠ cid) ∧
    closeConnection (closeConnection st cid) cid = closeConnection st cid ∧
    (lookupConn st cid = none → closeConnection st cid = st) :=
  ⟨closeConnection_not_mem st cid, closeConnection_twice st cid,
   fun h => closeConnection_unknown st cid h⟩

/-- C6 witness: closing the stored id `aId` and an unknown id on concrete
states. -/
theorem C6_close_idempotent_witness :
    (∀ c ∈ getConnections (closeConnection stConnW aId), c.id ≠ aId) ∧
    closeConnection (closeConnection stConnW aId) aId = closeConnection stConnW aId ∧
    closeConnection initState aId = initState :=
  ⟨(C6_close_idempotent stConnW aId).1, (C6_close_idempotent stConnW aId).2.1,
   (C6_close_idempotent initState aId).2.2 rfl⟩

/-- C7: over every operation sequence, `getConnectionCode` returns a code only
for an id that was created via `createConnection` and only after a transport
`signal` event stored a code for it; for a stored responder connection it
always returns `null`. -/
theorem C7_connection_code (ops : List Op) (cid : JStr) :
    (∀ code, getConnectionCode (run ops) cid = some code →
      Op.create cid ∈ ops ∧ ∃ d, Op.signalEvt cid d ∈ ops) ∧
    (∀ conn, lookupConn (run ops) cid = some conn → conn.isInitiator = false →
      getConnectionCode (run ops) cid = none) := by
  constructor
  · intro code h
    obtain ⟨conn, hc, hini, hcode⟩ := getConnectionCode_some _ _ _ h
    obtain ⟨h1, h2⟩ := conn_provenance ops cid conn hc
    exact ⟨h1 hini, h2 code hcode⟩
  · intro conn hc hr
    exact getConnectionCode_responder _ _ _ hc hr

/-- C7 witness: the created-and-signaled trace `opsSig` yields a code with the
required provenance; the joined trace `opsJoin` yields `null`. -/
theorem C7_connection_code_witness :
    (Op.create aId ∈ opsSig ∧ ∃ d, Op.signalEvt aId d ∈ opsSig) ∧
    getConnectionCode (run opsJoin) aId = none :=
  ⟨(C7_connection_code opsSig aId).1 ['5'] rfl,
   (C7_connection_code opsJoin aId).2 connJ rfl rfl⟩

/-- C8 (amended): an explicit `closeConnection` does remove the entry, but a
transport `close` event only flips the stored connection's `isConnected` flag
to `false` and keeps the entry registered under the same ids, and a transport
`error` event leaves the state untouched — closed connections are not removed
from the registry by transport events. -/
theorem C8_close_registry_amended (st : ServiceState) (cid : JStr) :
    (∀ c ∈ getConnections (closeConnection st cid), c.id ≠ cid) ∧
    (peerCloseEvent st cid).1.connections.map (fun c => c.id) =
      st.connections.map (fun c => c.id) ∧
    (∀ conn, lookupConn st cid = some conn →
      lookupConn (peerCloseEvent st cid).1 cid =
        some { conn with isConnected := false }) ∧
    peerErrorEvent st cid = st :=
  ⟨closeConnection_not_mem st cid, peerCloseEvent_ids st cid,
   fun conn h => peerCloseEvent_flag st cid conn h, rfl⟩

/-- C8 witness: the transport-close flag flip evaluated on the concrete state
`stConnW`. -/
theorem C8_close_registry_witness :
    lookupConn (peerCloseEvent stConnW aId).1 aId =
      some { connW with isConnected := false } :=
  (C8_close_registry_amended stConnW aId).2.2.1 connW rfl

/-- C8 counterexample: after create, connect and a transport `close` event the
connection is still listed by `getConnections`, with its connected flag
`false` — a closed connection remains in the registry. -/
theorem C8_close_registry_counterexample :
    getConnections (run opsClose) = [connClosed] ∧
    connClosed.isConnected = false :=
  ⟨rfl, rfl⟩

/-- C10: the envelope `shareLink` sends always carries `sharedBy` equal to the
constant `'peer'` and `createdAt` equal to the send time, whatever the input
link's stored `sharedBy` and `createdAt` are; the sent byte string is the
serialization of exactly that envelope. -/
theorem C10_stamped_fields (st : ServiceState) (cid : JStr) (L : P2PLink)
    (now : DateTime) (conn : P2PConnection) (h : lookupConn st cid = some conn)
    (hc : conn.isConnected = true) :
    lookupConn (shareLink st cid L now).1 cid = some { conn with peer :=
      { conn.peer with sent :=
        conn.peer.sent ++ [jsonStringify (wireMessage L now)] } } ∧
    jsGet (wireMessage L now) linkKey = some (.obj (wireLinkFields L now)) ∧
    jsGet (Json.obj (wireLinkFields L now)) sharedByKey = some (.str peerTag) ∧
    jsGet (Json.obj (wireLinkFields L now)) createdAtKey =
      some (.str (toISOString now)) := by
  refine ⟨?_, by simp +decide [wireMessage, jsGet],
    (wireLinkFields_stamped L now).1, (wireLinkFields_stamped L now).2⟩
  rw [shareLink_connected st cid L now conn h hc]
  have hl := lookupConn_updateConn st cid (fun c => { c with peer :=
    { c.peer with sent := c.peer.sent ++ [jsonStringify (wireMessage L now)] } })
    (fun c => rfl)
  rw [h, Option.map_some'] at hl
  exact hl

/-- C10 witness: the stamped fields of the message sent for the concrete link
`exL`, whose own `sharedBy` is `"alice"`. -/
theorem C10_stamped_fields_witness :
    jsGet (Json.obj (wireLinkFields exL exNow)) sharedByKey = some (.str peerTag) ∧
    jsGet (Json.obj (wireLinkFields exL exNow)) createdAtKey =
      some (.str (toISOString exNow)) :=
  ⟨(C10_stamped_fields stConnW aId exL exNow connW rfl rfl).2.2.1,
   (C10_stamped_fields stConnW aId exL exNow connW rfl rfl).2.2.2⟩
